import Mathlib

/-!
Verification development for the kixdns DNS forwarding proxy.

Each definition is a shallow embedding of the corresponding Rust item
(file and symbol named in its doc comment).  Machine integers (u8/u16/u32)
are modelled as `Nat` with explicit bounds or `% 2^w` where overflow can
occur; fallible Rust code returns `Option`; the mutable rule cache and the
upstream network are modelled by explicit state passing and oracle
functions.  External library behaviour (regex matching, CIDR containment,
`IpAddr`/`Name` parsing, the hickory message decoder) is modelled by
predicate fields or collaborator parameters, since no verified property
depends on their internals.
-/

namespace KixDns

/-! ### Generic list helpers

`sortNat` models Rust's `Vec::sort_unstable` on `Vec<usize>` (ascending
order; for natural numbers any correct sort produces the same list), and
`dedup_adj` models `Vec::dedup` (removal of consecutive duplicates). -/

/-- Ascending sort of a list of indices; models `candidates.sort_unstable()`
from `RuleIndex::get_candidates` (src/advanced_rule.rs): for natural
numbers, any correct ascending sort produces the same list. -/
def sortNat (l : List Nat) : List Nat := List.insertionSort (· ≤ ·) l

/-- Removal of consecutive duplicate elements; models `candidates.dedup()`
from `RuleIndex::get_candidates` (src/advanced_rule.rs). -/
def dedup_adj : List Nat → List Nat
  | [] => []
  | [x] => [x]
  | x :: y :: rest => if x = y then dedup_adj (y :: rest) else x :: dedup_adj (y :: rest)

/-! ### config.rs: operator and action enums -/

/-- src/config.rs `MatchOperator`.  `Not` is a backward-compatibility
placeholder marked `#[serde(skip)]`, hence never produced from a config. -/
inductive MatchOperator where
  | And
  | Or
  | AndNot
  | OrNot
  | Not
deriving DecidableEq, Repr

/-- src/config.rs `Transport`. -/
inductive Transport where
  | Udp
  | Tcp
deriving DecidableEq, Repr

/-- src/config.rs `Action`.  String payloads are kept verbatim; `Forward`
carries the optional upstream and transport of the config entry. -/
inductive Action where
  | Log (level : Option String)
  | StaticResponse (rcode : String)
  | StaticIpResponse (ip : String)
  | JumpToPipeline (pipeline : String)
  | Allow
  | Deny
  | Forward (upstream : Option String) (transport : Option Transport)
  | Continue
deriving DecidableEq, Repr

/-! ### matcher.rs: chain evaluation (`eval_match_chain`) -/

/-- Tail loop of src/matcher.rs `eval_match_chain`: the accumulator is
updated per item according to the item's operator, with the `continue`
branches skipping the predicate call. -/
def eval_chain_go {T : Type} (op_of : T → MatchOperator) (p : T → Bool) :
    Bool → List T → Bool
  | acc, [] => acc
  | acc, item :: rest =>
    match op_of item with
    | .And =>
      if !acc then eval_chain_go op_of p acc rest
      else eval_chain_go op_of p (acc && p item) rest
    | .Or =>
      if acc then eval_chain_go op_of p acc rest
      else eval_chain_go op_of p (acc || p item) rest
    | .AndNot =>
      if !acc then eval_chain_go op_of p acc rest
      else eval_chain_go op_of p (acc && !p item) rest
    | .OrNot =>
      if acc then eval_chain_go op_of p acc rest
      else eval_chain_go op_of p (acc || !p item) rest
    | .Not =>
      if !acc then eval_chain_go op_of p acc rest
      else eval_chain_go op_of p (acc && !p item) rest

/-- src/matcher.rs `eval_match_chain`: left-to-right chain where each item
carries its own operator; the first item's result seeds the accumulator and
its operator is ignored; the empty chain yields `true`. -/
def eval_match_chain {T : Type} (entries : List T) (op_of : T → MatchOperator)
    (p : T → Bool) : Bool :=
  match entries with
  | [] => true
  | first :: rest => eval_chain_go op_of p (p first) rest

/-- Instrumented tail loop of `eval_match_chain`: identical control flow,
additionally recording the positions at which the predicate is invoked
(a `continue` branch records nothing, mirroring the skipped call). -/
def eval_chain_go_trace {T : Type} (op_of : T → MatchOperator) (p : T → Bool) :
    Bool → Nat → List T → Bool × List Nat
  | acc, _, [] => (acc, [])
  | acc, i, item :: rest =>
    match op_of item with
    | .And =>
      if !acc then eval_chain_go_trace op_of p acc (i + 1) rest
      else
        let r := eval_chain_go_trace op_of p (acc && p item) (i + 1) rest
        (r.1, i :: r.2)
    | .Or =>
      if acc then eval_chain_go_trace op_of p acc (i + 1) rest
      else
        let r := eval_chain_go_trace op_of p (acc || p item) (i + 1) rest
        (r.1, i :: r.2)
    | .AndNot =>
      if !acc then eval_chain_go_trace op_of p acc (i + 1) rest
      else
        let r := eval_chain_go_trace op_of p (acc && !p item) (i + 1) rest
        (r.1, i :: r.2)
    | .OrNot =>
      if acc then eval_chain_go_trace op_of p acc (i + 1) rest
      else
        let r := eval_chain_go_trace op_of p (acc || !p item) (i + 1) rest
        (r.1, i :: r.2)
    | .Not =>
      if !acc then eval_chain_go_trace op_of p acc (i + 1) rest
      else
        let r := eval_chain_go_trace op_of p (acc && !p item) (i + 1) rest
        (r.1, i :: r.2)

/-- Instrumented `eval_match_chain`: same boolean result, together with the
list of item positions whose predicates were actually evaluated. -/
def eval_match_chain_trace {T : Type} (entries : List T)
    (op_of : T → MatchOperator) (p : T → Bool) : Bool × List Nat :=
  match entries with
  | [] => (true, [])
  | first :: rest =>
    let r := eval_chain_go_trace op_of p (p first) 1 rest
    (r.1, 0 :: r.2)

/-- Specification of the chain step written from the claim's table (C2),
tracking both the accumulator and the evaluated positions.  The `Not`
operator is not covered by the claim, so the specification is undefined
(`none`) on it. -/
def chain_spec_go : Bool → Nat → List (MatchOperator × Bool) →
    Option (Bool × List Nat)
  | acc, _, [] => some (acc, [])
  | acc, i, (op, pv) :: rest =>
    match op with
    | .And =>
      if !acc then chain_spec_go acc (i + 1) rest
      else (chain_spec_go pv (i + 1) rest).map fun r => (r.1, i :: r.2)
    | .Or =>
      if acc then chain_spec_go acc (i + 1) rest
      else (chain_spec_go pv (i + 1) rest).map fun r => (r.1, i :: r.2)
    | .AndNot =>
      if !acc then chain_spec_go acc (i + 1) rest
      else (chain_spec_go (!pv) (i + 1) rest).map fun r => (r.1, i :: r.2)
    | .OrNot =>
      if acc then chain_spec_go acc (i + 1) rest
      else (chain_spec_go (!pv) (i + 1) rest).map fun r => (r.1, i :: r.2)
    | .Not => none

/-- Specification of the whole chain written from the claim's words (C2):
empty chain is `true`; the accumulator is seeded with the first predicate
(its operator ignored); each later step follows `chain_spec_go`; the second
component lists the positions whose predicates are evaluated. -/
def chain_spec_run : List (MatchOperator × Bool) → Option (Bool × List Nat)
  | [] => some (true, [])
  | (_, pv) :: rest => (chain_spec_go pv 1 rest).map fun r => (r.1, 0 :: r.2)

/-! ### matcher.rs: rule-level operator propagation (`from_config`) -/

/-- src/matcher.rs `RuntimePipelineConfig::from_config`, lines 127-145 (and
the identical pattern for response and selector matchers): if every item's
per-item operator is the default `And`, the list is non-empty, and the
rule-level operator is non-default, every item's operator is overwritten
with the rule-level operator; otherwise the list is unchanged.  `M` stands
for the compiled matcher payload, which is untouched. -/
def apply_rule_operator {M : Type} (rule_op : MatchOperator)
    (ms : List (MatchOperator × M)) : List (MatchOperator × M) :=
  if ms.all (fun m => decide (m.1 = MatchOperator.And)) && !ms.isEmpty
      && !(decide (rule_op = MatchOperator.And)) then
    ms.map fun m => (rule_op, m.2)
  else ms

/-! ### proto_utils.rs: quick request parsing (`parse_quick`)

Packets are byte lists (`List Nat`, each element < 256 for well-formed
input).  The caller-supplied name buffer is modelled by its capacity
`bufLen` and the list of bytes written so far (whose length plays the role
of `buf_pos`). -/

/-- Models `u8::to_ascii_lowercase`: ASCII upper-case bytes are shifted to lower
case, all other bytes preserved. -/
def to_ascii_lower (b : Nat) : Nat :=
  if 65 ≤ b ∧ b ≤ 90 then b + 32 else b

/-- Writing the `.` separator between labels in `parse_quick`: a no-op when
the buffer is still empty, otherwise a bounds-checked push of byte 0x2E. -/
def write_sep (bufLen : Nat) (buf : List Nat) : Option (List Nat) :=
  if 0 < buf.length then
    if bufLen ≤ buf.length then none else some (buf ++ [46])
  else some buf

/-- Writing one label's bytes in `parse_quick`: each byte is bounds-checked
against the buffer capacity and lower-cased. -/
def write_label (bufLen : Nat) (buf : List Nat) : List Nat → Option (List Nat)
  | [] => some buf
  | b :: rest =>
    if bufLen ≤ buf.length then none
    else write_label bufLen (buf ++ [to_ascii_lower b]) rest

/-- The QNAME loop of src/proto_utils.rs `parse_quick`, instrumented with a
counter of compression-pointer jumps taken (`hops`); the counter does not
influence control flow.  Returns the name bytes written into the buffer and
the position of the first byte after the question name, or `none` on any
malformed input — in particular when the fifth pointer jump exhausts
`max_jumps` (loop detection). -/
def pq_loop_hops (packet : List Nat) (bufLen : Nat)
    (current_pos pos : Nat) (jumped : Bool) (max_jumps : Nat)
    (buf : List Nat) (hops : Nat) : Option (List Nat × Nat) × Nat :=
  if _hcp : packet.length ≤ current_pos then (none, hops)
  else
    let len := packet.getD current_pos 0
    if len = 0 then
      (some (buf, if jumped then pos else current_pos + 1), hops)
    else if len &&& 192 = 192 then
      if packet.length < current_pos + 2 then (none, hops)
      else
        let pos' := if jumped then pos else current_pos + 2
        let offset := ((len &&& 63) <<< 8) ||| packet.getD (current_pos + 1) 0
        if hj : max_jumps - 1 = 0 then (none, hops + 1)
        else pq_loop_hops packet bufLen offset pos' true (max_jumps - 1) buf (hops + 1)
    else
      if packet.length < current_pos + 1 + len then (none, hops)
      else
        match write_sep bufLen buf with
        | none => (none, hops)
        | some buf1 =>
          match write_label bufLen buf1 ((packet.drop (current_pos + 1)).take len) with
          | none => (none, hops)
          | some buf2 =>
            pq_loop_hops packet bufLen (current_pos + 1 + len) pos jumped max_jumps buf2 hops
termination_by max_jumps * (packet.length + 1) + (packet.length - current_pos)
decreasing_by
  · calc (max_jumps - 1) * (packet.length + 1)
          + (packet.length - ((len &&& 63) <<< 8 ||| packet.getD (current_pos + 1) 0))
        < (max_jumps - 1) * (packet.length + 1) + (packet.length + 1) := by omega
      _ = (max_jumps - 1 + 1) * (packet.length + 1) := by ring
      _ ≤ max_jumps * (packet.length + 1) := by
          have : max_jumps - 1 + 1 ≤ max_jumps := by omega
          exact Nat.mul_le_mul_right _ this
      _ ≤ max_jumps * (packet.length + 1) + (packet.length - current_pos) := Nat.le_add_right _ _
  · have : packet.length - (current_pos + 1 + len) < packet.length - current_pos := by omega
    omega

/-- Result of src/proto_utils.rs `parse_quick`: transaction id, lower-cased
QNAME bytes (the validated UTF-8 slice of the buffer), QTYPE and QCLASS. -/
structure QuickQuery where
  tx_id : Nat
  qname : List Nat
  qtype : Nat
  qclass : Nat
deriving DecidableEq, Repr

/-- Continuation-byte test for UTF-8 validation (0x80..0xBF). -/
def utf8_cont (b : Nat) : Bool := 128 ≤ b && b ≤ 191

/-- Models the `std::str::from_utf8` validity check, modelled by the standard UTF-8
well-formedness conditions (no overlong encodings, no surrogates, no code
points above U+10FFFF). -/
def utf8_valid : List Nat → Bool
  | [] => true
  | b :: rest =>
    if b ≤ 127 then utf8_valid rest
    else if b ≤ 193 then false
    else if b ≤ 223 then
      match rest with
      | c1 :: rest2 => utf8_cont c1 && utf8_valid rest2
      | [] => false
    else if b ≤ 239 then
      match rest with
      | c1 :: c2 :: rest2 =>
        (if b = 224 then 160 ≤ c1 && c1 ≤ 191
         else if b = 237 then 128 ≤ c1 && c1 ≤ 159
         else utf8_cont c1) && utf8_cont c2 && utf8_valid rest2
      | _ => false
    else if b ≤ 244 then
      match rest with
      | c1 :: c2 :: c3 :: rest2 =>
        (if b = 240 then 144 ≤ c1 && c1 ≤ 191
         else if b = 244 then 128 ≤ c1 && c1 ≤ 143
         else utf8_cont c1) && utf8_cont c2 && utf8_cont c3 && utf8_valid rest2
      | _ => false
    else false

/-- src/proto_utils.rs `parse_quick` instrumented with the pointer-jump
counter of its QNAME loop: header length check, transaction id and QDCOUNT
from the fixed header offsets, the QNAME loop starting at offset 12 with a
jump budget of 5, the trailing QTYPE/QCLASS read, and the final UTF-8
validation of the buffer slice. -/
def parse_quick_hops (packet : List Nat) (bufLen : Nat) :
    Option QuickQuery × Nat :=
  if packet.length < 12 then (none, 0)
  else
    let tx_id := packet.getD 0 0 * 256 + packet.getD 1 0
    let qd_count := packet.getD 4 0 * 256 + packet.getD 5 0
    if qd_count = 0 then (none, 0)
    else
      match pq_loop_hops packet bufLen 12 12 false 5 [] 0 with
      | (none, hops) => (none, hops)
      | (some (buf, pos), hops) =>
        if packet.length < pos + 4 then (none, hops)
        else
          let qtype := packet.getD pos 0 * 256 + packet.getD (pos + 1) 0
          let qclass := packet.getD (pos + 2) 0 * 256 + packet.getD (pos + 3) 0
          if utf8_valid buf then (some ⟨tx_id, buf, qtype, qclass⟩, hops)
          else (none, hops)

/-- src/proto_utils.rs `parse_quick`: the hop counter erased. -/
def parse_quick (packet : List Nat) (bufLen : Nat) : Option QuickQuery :=
  (parse_quick_hops packet bufLen).1

/-! ### matcher.rs / advanced_rule.rs: matcher data types

Domain names handled by matchers and indices are `List Char` (Rust `&str`
sliced at ASCII dots).  `IpAddr` distinguishes v4/v6 with an abstract
numeric payload; CIDR containment (`ipnet::IpNet::contains`) and regex
matching (`regex::Regex::is_match`) are external-library behaviour and are
modelled by the predicate carried in the corresponding matcher variant. -/

/-- Models `std::net::IpAddr`. -/
inductive IpAddr where
  | V4 (addr : Nat)
  | V6 (addr : Nat)
deriving DecidableEq, Repr

/-- src/matcher.rs `RuntimeMatcher`. -/
inductive RuntimeMatcher where
  | Any
  | DomainSuffix (value : List Char)
  | ClientIp (contains : IpAddr → Bool)
  | DomainRegex (is_match : List Char → Bool)
  | Qclass (value : Nat)
  | EdnsPresent (expect : Bool)

/-- src/matcher.rs `RuntimeMatcher::matches`. -/
def runtime_matcher_matches (m : RuntimeMatcher) (qname : List Char)
    (qclass : Nat) (client_ip : IpAddr) (edns_present : Bool) : Bool :=
  match m with
  | .Any => true
  | .DomainSuffix value => value.isSuffixOf qname
  | .ClientIp contains => contains client_ip
  | .DomainRegex is_match => is_match qname
  | .Qclass value => qclass = value
  | .EdnsPresent expect => expect = edns_present

/-! ### advanced_rule.rs: compiled rules and the rule index -/

/-- src/advanced_rule.rs `CompiledMatcher`. -/
inductive CompiledMatcher where
  | DomainExact (domain : List Char)
  | DomainSuffix (suffix : List Char)
  | ClientIp (contains : IpAddr → Bool)
  | QueryType (qtype : Nat)
  | Qclass (qclass : Nat)
  | Regex (is_match : List Char → Bool)
  | Complex (matcher : RuntimeMatcher)

/-- src/advanced_rule.rs `CompiledMatcherWithOp`. -/
structure CompiledMatcherWithOp where
  operator : MatchOperator
  matcher : CompiledMatcher

/-- src/advanced_rule.rs `PrecomputedAction` (rcode as in `ResponseCode`,
ip kept as the original string). -/
inductive PrecomputedAction where
  | StaticP (rcode : Nat)
  | StaticIpP (ip : String)

/-- src/advanced_rule.rs `CompiledRule`. -/
structure CompiledRule where
  rule_idx : Nat
  matcher_operator : MatchOperator
  matchers : List CompiledMatcherWithOp
  precomputed : Option PrecomputedAction

/-- Lookup in a `HashMap<_, Vec<usize>>` modelled as an association list;
an absent key behaves as the empty bucket (matching the
`if let Some(indices) = map.get(..)` pattern of `get_candidates`). -/
def assoc_get {κ : Type} [DecidableEq κ] (m : List (κ × List Nat)) (k : κ) :
    List Nat :=
  match m.find? (fun e => decide (e.1 = k)) with
  | some e => e.2
  | none => []

/-- Models `map.entry(key).or_default().push(v)` on the association-list model. -/
def assoc_push {κ : Type} [DecidableEq κ] (m : List (κ × List Nat)) (k : κ)
    (v : Nat) : List (κ × List Nat) :=
  match m with
  | [] => [(k, [v])]
  | (k', vs) :: rest =>
    if k' = k then (k', vs ++ [v]) :: rest else (k', vs) :: assoc_push rest k v

/-- src/advanced_rule.rs `RuleIndex`. -/
structure RuleIndex where
  domain_exact : List (List Char × List Nat)
  domain_suffix : List (List Char × List Nat)
  query_type : List (Nat × List Nat)
  always_check : List Nat

/-- Models `RuleIndex::new` / `RuleIndex::default`. -/
def RuleIndex.empty : RuleIndex := ⟨[], [], [], []⟩

/-- The first-applicable-bucket scan inside src/advanced_rule.rs
`RuleIndex::add_rule`: the first matcher that is a non-empty `DomainExact`,
a non-empty `DomainSuffix`, or a `QueryType` decides the bucket; if none
qualifies the rule joins `always_check`. -/
def add_rule_scan (ix : RuleIndex) (rule_idx : Nat) :
    List CompiledMatcherWithOp → RuleIndex
  | [] => { ix with always_check := ix.always_check ++ [rule_idx] }
  | m :: rest =>
    match m.matcher with
    | .DomainExact domain =>
      if domain ≠ [] then
        { ix with domain_exact := assoc_push ix.domain_exact domain rule_idx }
      else add_rule_scan ix rule_idx rest
    | .DomainSuffix suffix =>
      if suffix ≠ [] then
        { ix with domain_suffix := assoc_push ix.domain_suffix suffix rule_idx }
      else add_rule_scan ix rule_idx rest
    | .QueryType qtype =>
      { ix with query_type := assoc_push ix.query_type qtype rule_idx }
    | _ => add_rule_scan ix rule_idx rest

/-- src/advanced_rule.rs `RuleIndex::add_rule`: a rule whose matcher chain
is not a pure AND chain (every operator after the first being `And`) goes
to `always_check`; otherwise the first indexable matcher decides the
bucket. -/
def add_rule (ix : RuleIndex) (rule_idx : Nat) (rule : CompiledRule) :
    RuleIndex :=
  let and_chain :=
    (rule.matchers.drop 1).all fun m => decide (m.operator = MatchOperator.And)
  if !and_chain then { ix with always_check := ix.always_check ++ [rule_idx] }
  else add_rule_scan ix rule_idx rule.matchers

/-- The proper label-boundary suffixes of a name, as produced by the
`search_name = &search_name[idx + 1..]` stepping of the suffix loop in
`RuleIndex::get_candidates`: scanning left to right, each dot yields the
remainder after it (equivalently, the results of repeatedly stripping the
leading label at the first dot). -/
def tail_suffixes : List Char → List (List Char)
  | [] => []
  | c :: rest =>
    if c = '.' then rest :: tail_suffixes rest else tail_suffixes rest

/-- All search names visited by the suffix loop of `get_candidates`: the
query name itself, then every proper label-boundary suffix. -/
def label_suffixes (q : List Char) : List (List Char) :=
  q :: tail_suffixes q

/-- The lookups performed by the suffix loop after the first one: one per
proper label-boundary suffix, in scan order. -/
def tail_search (m : List (List Char × List Nat)) : List Char → List Nat
  | [] => []
  | c :: rest =>
    if c = '.' then assoc_get m rest ++ tail_search m rest
    else tail_search m rest

/-- The suffix-walk loop of src/advanced_rule.rs `RuleIndex::get_candidates`:
look up the current search name, then strip the leading label at the first
dot and repeat until no dot remains. -/
def suffix_search (m : List (List Char × List Nat)) (q : List Char) :
    List Nat :=
  assoc_get m q ++ tail_search m q

/-- src/advanced_rule.rs `RuleIndex::get_candidates`: `always_check`, the
exact-name bucket, every suffix bucket along the label-boundary suffixes of
the query name, and the query-type bucket, sorted ascending and with
consecutive duplicates removed. -/
def get_candidates (ix : RuleIndex) (qname : List Char) (qtype : Nat) :
    List Nat :=
  dedup_adj (sortNat
    (ix.always_check ++ assoc_get ix.domain_exact qname ++
      suffix_search ix.domain_suffix qname ++ assoc_get ix.query_type qtype))

/-- The index-construction loop of src/advanced_rule.rs `compile_pipeline`:
`add_rule` applied to every rule with its position. -/
def build_index (rules : List CompiledRule) : RuleIndex :=
  (rules.enum).foldl (fun ix p => add_rule ix p.1 p.2) RuleIndex.empty

/-! ### engine.rs: DNS messages and response building

The hickory `Message` is modelled by the fields the engine reads or sets
(`op_code` is always `Query` and is folded into the flag encoding).  The
encoder (`Message::emit` via `BinEncoder`) is modelled by the RFC 1035 wire
format without name compression: the claims only depend on the header
layout, whose first two bytes are the big-endian message id. -/

/-- hickory `ResponseCode` restricted to the codes the engine produces or
parses; `Other` covers the remaining wire values. -/
inductive ResponseCode where
  | NoError
  | FormErr
  | ServFail
  | NXDomain
  | NotImp
  | Refused
  | Other (code : Nat)
deriving DecidableEq, Repr

/-- hickory `RData` restricted to the records the engine synthesizes. -/
inductive RData where
  | A (addr : Nat)
  | AAAA (addr : Nat)
deriving DecidableEq, Repr

/-- hickory `Record` as used by the engine (class is always IN). -/
structure DnsRecord where
  name : List Char
  ttl : Nat
  rdata : RData
deriving DecidableEq, Repr

/-- hickory `Query`. -/
structure DnsQuery where
  name : List Char
  qtype : Nat
  qclass : Nat
deriving DecidableEq, Repr

/-- hickory `Message`, restricted to the fields the engine touches. -/
structure Message where
  id : Nat
  is_response : Bool
  recursion_desired : Bool
  recursion_available : Bool
  authoritative : Bool
  response_code : ResponseCode
  queries : List DnsQuery
  answers : List DnsRecord
  edns_present : Bool
deriving DecidableEq, Repr

/-- Big-endian byte encoding of a width-`n` machine integer. -/
def bytes_be (n v : Nat) : List Nat :=
  (List.range n).map fun i => v / 256 ^ (n - 1 - i) % 256

/-- Wire value of a response code (header RCODE nibble). -/
def rcode_num : ResponseCode → Nat
  | .NoError => 0
  | .FormErr => 1
  | .ServFail => 2
  | .NXDomain => 3
  | .NotImp => 4
  | .Refused => 5
  | .Other code => code % 16

/-- Split a textual name into its dot-separated labels. -/
def split_on_dot : List Char → List (List Char)
  | [] => [[]]
  | c :: rest =>
    if c = '.' then [] :: split_on_dot rest
    else
      match split_on_dot rest with
      | [] => [[c]]
      | l :: ls => (c :: l) :: ls

/-- RFC 1035 uncompressed name encoding: length-prefixed labels followed by
the zero terminator. -/
def emit_name (name : List Char) : List Nat :=
  ((split_on_dot name).filter fun l => !l.isEmpty).foldr
    (fun l acc => l.length :: l.map Char.toNat ++ acc) [0]

/-- Record-type wire value of a synthesized record. -/
def rtype_num : RData → Nat
  | .A _ => 1
  | .AAAA _ => 28

/-- RDATA wire bytes of a synthesized record. -/
def emit_rdata : RData → List Nat
  | .A addr => bytes_be 4 addr
  | .AAAA addr => bytes_be 16 addr

/-- Wire encoding of a question entry. -/
def emit_query (q : DnsQuery) : List Nat :=
  emit_name q.name ++ bytes_be 2 q.qtype ++ bytes_be 2 q.qclass

/-- Wire encoding of an answer record (class IN). -/
def emit_record (r : DnsRecord) : List Nat :=
  emit_name r.name ++ bytes_be 2 (rtype_num r.rdata) ++ bytes_be 2 1 ++
    bytes_be 4 r.ttl ++ bytes_be 2 (emit_rdata r.rdata).length ++
    emit_rdata r.rdata

/-- High flag byte: QR, Opcode (always Query = 0), AA, TC (never set), RD. -/
def flags_hi (m : Message) : Nat :=
  (if m.is_response then 128 else 0) + (if m.authoritative then 4 else 0) +
    (if m.recursion_desired then 1 else 0)

/-- Low flag byte: RA, Z (zero), RCODE. -/
def flags_lo (m : Message) : Nat :=
  (if m.recursion_available then 128 else 0) + rcode_num m.response_code

/-- Models `Message::emit` through `BinEncoder`: the 12-byte header (id, flags and
the four section counts) followed by the question and answer sections. -/
def emit_message (m : Message) : List Nat :=
  bytes_be 2 m.id ++ [flags_hi m, flags_lo m] ++ bytes_be 2 m.queries.length ++
    bytes_be 2 m.answers.length ++ bytes_be 2 0 ++ bytes_be 2 0 ++
    (m.queries.map emit_query).flatten ++ (m.answers.map emit_record).flatten

/-- src/engine.rs `build_response`: a response message that copies the
request's id, queries and RD flag, sets RA, clears AA, and carries the
given response code and answers. -/
def build_response (req : Message) (rcode : ResponseCode)
    (answers : List DnsRecord) : List Nat :=
  emit_message
    { id := req.id
      is_response := true
      recursion_desired := req.recursion_desired
      recursion_available := true
      authoritative := false
      response_code := rcode
      queries := req.queries
      answers := answers
      edns_present := false }

/-- src/engine.rs `build_fast_static_response`: builds the response from the
quick-parse data; `parse_name` models the fallible hickory
`Name::from_str` on the quick-parsed qname. -/
def build_fast_static_response (parse_name : List Char → Option (List Char))
    (tx_id : Nat) (qname : List Char) (qtype qclass : Nat)
    (rcode : ResponseCode) (answers : List DnsRecord) : Option (List Nat) :=
  match parse_name qname with
  | none => none
  | some nm =>
    some (emit_message
      { id := tx_id
        is_response := true
        recursion_desired := true
        recursion_available := true
        authoritative := false
        response_code := rcode
        queries := [⟨nm, qtype, qclass⟩]
        answers := answers
        edns_present := false })

/-- The transaction-id overwrite performed on every cached or
single-flight response in src/engine.rs (`handle_packet_fast` L2 hit,
`handle_packet` cache hit and follower paths): when the byte vector has at
least two bytes, its first two bytes are replaced by the requester's
big-endian transaction id. -/
def cache_hit_rewrite (tx_id : Nat) (bytes : List Nat) : List Nat :=
  if 2 ≤ bytes.length then bytes_be 2 tx_id ++ bytes.drop 2 else bytes

/-! ### engine.rs: decisions, rule walking (`apply_rules`) -/

/-- Models `str::to_ascii_uppercase` (Lean's `Char.toUpper` also only maps ASCII
lower-case letters). -/
def ascii_upper (s : String) : String := String.mk (s.data.map Char.toUpper)

/-- src/engine.rs `parse_rcode` (textually identical in
src/advanced_rule.rs): case-insensitive parse of the six supported rcode
names. -/
def parse_rcode (rcode : String) : Option ResponseCode :=
  let u := ascii_upper rcode
  if u = "NOERROR" then some .NoError
  else if u = "FORMERR" then some .FormErr
  else if u = "SERVFAIL" then some .ServFail
  else if u = "NXDOMAIN" then some .NXDomain
  else if u = "NOTIMP" then some .NotImp
  else if u = "REFUSED" then some .Refused
  else none

/-- src/engine.rs `contains_continue`. -/
def contains_continue (actions : List Action) : Bool :=
  actions.any fun action =>
    match action with
    | .Continue => true
    | _ => false

/-- src/matcher.rs `RuntimeResponseMatcherWithOp`.  The matcher payload's
`matches(upstream, qname, qtype, qclass, msg)` evaluation
(src/matcher.rs `RuntimeResponseMatcher::matches`, built on external regex
and CIDR libraries) is modelled by the carried predicate; no verified
property depends on its internals. -/
structure RespMatcherWithOp where
  operator : MatchOperator
  matches_pred : String → List Char → Nat → Nat → Message → Bool

/-- src/engine.rs `Decision`. -/
inductive Decision where
  | Static (rcode : ResponseCode) (answers : List DnsRecord)
  | Forward (upstream : String) (response_matchers : List RespMatcherWithOp)
      (response_matcher_operator : MatchOperator)
      (response_actions_on_match : List Action)
      (response_actions_on_miss : List Action)
      (rule_name : String) (transport : Transport)
      (continue_on_match : Bool) (continue_on_miss : Bool)
      (allow_reuse : Bool)
  | Jump (pipeline : String)

/-- Fallible collaborator parsers used inside rule actions:
`std::net::IpAddr::from_str` and hickory `Name::from_str`. -/
structure Collaborators where
  parse_ip : String → Option IpAddr
  parse_name : List Char → Option (List Char)

/-- The `RData` for a parsed static IP (A for v4, AAAA for v6). -/
def rdata_of_ip : IpAddr → RData
  | .V4 addr => .A addr
  | .V6 addr => .AAAA addr

/-- src/engine.rs `make_static_ip_answer`: an A/AAAA record with TTL 300
and `NoError` when both the IP and the name parse, `(ServFail, [])`
otherwise. -/
def make_static_ip_answer (collab : Collaborators) (qname : List Char)
    (ip : String) : ResponseCode × List DnsRecord :=
  match collab.parse_ip ip with
  | some ip_addr =>
    match collab.parse_name qname with
    | some nm => (.NoError, [⟨nm, 300, rdata_of_ip ip_addr⟩])
    | none => (.ServFail, [])
  | none => (.ServFail, [])

/-- src/matcher.rs `RuntimeMatcherWithOp`. -/
structure RuntimeMatcherWithOp where
  operator : MatchOperator
  matcher : RuntimeMatcher

/-- src/matcher.rs `RuntimeRule`. -/
structure RuntimeRule where
  name : String
  matcher_operator : MatchOperator
  matchers : List RuntimeMatcherWithOp
  actions : List Action
  response_matchers : List RespMatcherWithOp
  response_matcher_operator : MatchOperator
  response_actions_on_match : List Action
  response_actions_on_miss : List Action

/-- src/matcher.rs `RuntimePipeline` (runtime fallback indices included). -/
structure RuntimePipeline where
  id : String
  rules : List RuntimeRule
  domain_suffix_index : List (List Char × List Nat)
  always_check_rules : List Nat

/-- Outcome of executing one matched rule's action list inside
`Engine::apply_rules`: either a terminal decision (with the flag recording
whether the decision was inserted into the L1 rule cache) or a fall-through
to the next candidate rule (`Continue` action, or an action list exhausted
without a terminal action). -/
inductive RuleStep where
  | Decided (d : Decision) (cached : Bool)
  | Fallthrough

/-- The `for action in &rule.actions` loop of src/engine.rs
`Engine::apply_rules` (lines 946-1106), for one matched rule.  Every
terminal arm inserts its decision into the L1 rule cache except the
`Forward` arm when either continue flag is set; `Log` proceeds to the next
action; `Continue` abandons the rule. -/
def run_rule_actions (collab : Collaborators) (upstream_default : String)
    (qname : List Char) (rule : RuntimeRule) : List Action → RuleStep
  | [] => .Fallthrough
  | action :: rest =>
    match action with
    | .StaticResponse rcode =>
      .Decided (.Static ((parse_rcode rcode).getD .NXDomain) []) true
    | .StaticIpResponse ip =>
      match collab.parse_ip ip with
      | some ip_addr =>
        match collab.parse_name qname with
        | some nm =>
          .Decided (.Static .NoError [⟨nm, 300, rdata_of_ip ip_addr⟩]) true
        | none => .Decided (.Static .ServFail []) true
      | none => .Decided (.Static .ServFail []) true
    | .JumpToPipeline target => .Decided (.Jump target) true
    | .Allow =>
      .Decided
        (.Forward upstream_default [] .And [] [] rule.name .Udp false false true)
        true
    | .Deny => .Decided (.Static .Refused []) true
    | .Forward upstream transport =>
      let upstream_addr := upstream.getD upstream_default
      let com := contains_continue rule.response_actions_on_match
      let comiss := contains_continue rule.response_actions_on_miss
      .Decided
        (.Forward upstream_addr rule.response_matchers
          rule.response_matcher_operator rule.response_actions_on_match
          rule.response_actions_on_miss rule.name (transport.getD .Udp)
          com comiss false)
        (!com && !comiss)
    | .Log _ => run_rule_actions collab upstream_default qname rule rest
    | .Continue => .Fallthrough

/-- The default decision produced when no candidate rule terminates
(src/engine.rs lines 1110-1131); it is always inserted into the rule
cache. -/
def default_forward (upstream_default : String) : Decision :=
  .Forward upstream_default [] .And [] [] "default" .Udp false false false

/-- The `'rules` candidate loop of `Engine::apply_rules`: skip rules named
in the continue-skip set, evaluate the matcher chain, and run the first
matching rule's actions; results pair the decision with the L1 cache write
it performs (`none` when nothing is written).  `none` overall models the
panic of `pipeline.rules[idx]` on an out-of-range candidate index. -/
def walk_rules (collab : Collaborators) (upstream_default : String)
    (pipeline : RuntimePipeline) (client_ip : IpAddr) (qname : List Char)
    (qclass : Nat) (edns_present : Bool) (skip_rules : Option (List String)) :
    List Nat → Option (Decision × Option Decision)
  | [] =>
    let d := default_forward upstream_default
    some (d, some d)
  | idx :: rest =>
    match pipeline.rules.get? idx with
    | none => none
    | some rule =>
      if (skip_rules.map fun l => l.contains rule.name).getD false then
        walk_rules collab upstream_default pipeline client_ip qname qclass
          edns_present skip_rules rest
      else
        let req_match := eval_match_chain rule.matchers (fun m => m.operator)
          (fun m =>
            runtime_matcher_matches m.matcher qname qclass client_ip edns_present)
        if req_match then
          match run_rule_actions collab upstream_default qname rule rule.actions with
          | .Decided d cached => some (d, if cached then some d else none)
          | .Fallthrough =>
            walk_rules collab upstream_default pipeline client_ip qname qclass
              edns_present skip_rules rest
        else
          walk_rules collab upstream_default pipeline client_ip qname qclass
            edns_present skip_rules rest

/-- Candidate selection and rule walking of `Engine::apply_rules` (lines
903-1131): candidates come from the compiled `RuleIndex` when available;
when that yields nothing, the runtime fallback combines
`always_check_rules` with the suffix-index walk, sorted and deduplicated. -/
def apply_rules_core (collab : Collaborators) (upstream_default : String)
    (compiled : Option RuleIndex) (pipeline : RuntimePipeline)
    (client_ip : IpAddr) (qname : List Char) (qtype qclass : Nat)
    (edns_present : Bool) (skip_rules : Option (List String)) :
    Option (Decision × Option Decision) :=
  let cand0 :=
    match compiled with
    | some ix => get_candidates ix qname qtype
    | none => []
  let cands :=
    if cand0.isEmpty then
      dedup_adj (sortNat (pipeline.always_check_rules ++
        suffix_search pipeline.domain_suffix_index qname))
    else cand0
  walk_rules collab upstream_default pipeline client_ip qname qclass
    edns_present skip_rules cands

/-- src/engine.rs `Engine::apply_rules`.  The L1 rule cache is modelled by
`cache_lookup`, the outcome of the validated hash lookup for the request's
`(pipeline_id, qname, client_ip)` key (64-bit hashing with secondary-field
validation is modelled as an exact-key map); the second result component is
the decision the call inserts under that key, if any. -/
def apply_rules (collab : Collaborators) (upstream_default : String)
    (cache_lookup : Option Decision) (compiled : Option RuleIndex)
    (pipeline : RuntimePipeline) (client_ip : IpAddr) (qname : List Char)
    (qtype qclass : Nat) (edns_present : Bool)
    (skip_rules : Option (List String)) : Option (Decision × Option Decision) :=
  let allow_lookup :=
    match skip_rules with
    | none => true
    | some l => l.isEmpty
  if allow_lookup then
    match cache_lookup with
    | some d => some (d, none)
    | none =>
      apply_rules_core collab upstream_default compiled pipeline client_ip
        qname qtype qclass edns_present skip_rules
  else
    apply_rules_core collab upstream_default compiled pipeline client_ip
      qname qtype qclass edns_present skip_rules

/-! ### engine.rs: request-phase jump resolution (`handle_packet`) -/

/-- The engine's config snapshot as seen by the jump loop: the global
default upstream, the runtime pipelines, and the compiled per-pipeline
indices (`Engine::compiled_for`). -/
structure RuntimeConfig where
  default_upstream : String
  pipelines : List RuntimePipeline
  compiled : List (String × RuleIndex)

/-- src/engine.rs `Engine::compiled_for`. -/
def compiled_for (cfg : RuntimeConfig) (pid : String) : Option RuleIndex :=
  (cfg.compiled.find? fun e => decide (e.1 = pid)).map (·.2)

/-- Rule-cache state across the jump loop, keyed by pipeline id (the qname
and client ip of the key are fixed within one request). -/
def rc_find (cache : List (String × Decision)) (pid : String) :
    Option Decision :=
  (cache.find? fun e => decide (e.1 = pid)).map (·.2)

/-- Recording the cache write of one `apply_rules` call. -/
def rc_store (cache : List (String × Decision)) (pid : String) :
    Option Decision → List (String × Decision)
  | some d => (pid, d) :: cache
  | none => cache

/-- The inner jump-resolution loop of src/engine.rs `Engine::handle_packet`
(lines 358-398): while the decision is a `Jump`, the jump counter is
incremented and the current pipeline replaced by the target; a counter
exceeding the limit or an unknown target pipeline turns the decision into
`Static(ServFail, [])`.  Returns the resolved decision, the current
pipeline id and the rule-cache state; `none` propagates an `apply_rules`
panic. -/
def resolve_jumps (collab : Collaborators) (cfg : RuntimeConfig)
    (client_ip : IpAddr) (qname : List Char) (qtype qclass : Nat)
    (edns_present : Bool) (limit : Nat) (jump_count : Nat)
    (current_pipeline_id : String) (cache : List (String × Decision)) :
    Decision → Option (Decision × String × List (String × Decision))
  | .Jump target =>
    if h : limit < jump_count + 1 then
      some (.Static .ServFail [], current_pipeline_id, cache)
    else
      match cfg.pipelines.find? (fun p => decide (p.id = target)) with
      | some p =>
        match apply_rules collab cfg.default_upstream (rc_find cache target)
            (compiled_for cfg target) p client_ip qname qtype qclass
            edns_present none with
        | some (d, w) =>
          resolve_jumps collab cfg client_ip qname qtype qclass edns_present
            limit (jump_count + 1) target (rc_store cache target w) d
        | none => none
      | none => some (.Static .ServFail [], current_pipeline_id, cache)
  | .Static rcode answers => some (.Static rcode answers, current_pipeline_id, cache)
  | .Forward upstream rms rmo ram ramiss rn tr com comiss ar =>
    some (.Forward upstream rms rmo ram ramiss rn tr com comiss ar,
      current_pipeline_id, cache)
termination_by d => limit + 1 - jump_count
decreasing_by omega

/-! ### engine.rs: response-action executor (`apply_response_actions`) -/

/-- src/engine.rs `ResponseContext`. -/
structure ResponseContext where
  raw : List Nat
  msg : Message
  upstream : String
  transport : Transport

/-- src/engine.rs `ResponseActionResult`. -/
inductive ResponseActionResult where
  | Upstream (ctx : ResponseContext) (resp_match : Bool)
  | Static (bytes : List Nat) (rcode : ResponseCode) (source : String)
  | Jump (pipeline : String) (remaining_jumps : Nat)
  | Continue (ctx : Option ResponseContext)

/-- Outcome of one upstream call made by a response-phase `Forward` action
(`Engine::forward_upstream` followed by `Message::from_bytes`): success
with the raw bytes and decoded message, an I/O or timeout failure, or
bytes that the decoder rejects. -/
inductive ForwardOutcome where
  | ok (raw : List Nat) (msg : Message)
  | ioFail
  | parseFail (raw : List Nat)

/-- Applies `eval_match_chain` to response matchers exactly as in
src/engine.rs (`|m| m.operator`, `|m| m.matcher.matches(upstream, qname,
qtype, qclass, msg)`). -/
def eval_response_matchers (rms : List RespMatcherWithOp) (upstream : String)
    (qname : List Char) (qtype qclass : Nat) (msg : Message) : Bool :=
  eval_match_chain rms (fun m => m.operator)
    (fun m => m.matches_pred upstream qname qtype qclass msg)

/-- src/engine.rs `Engine::apply_response_actions` (lines 1203-1368),
instrumented with a count of upstream calls actually issued.  The network
is modelled by `oracle`, indexed by the number of calls issued so far.  The
first result component is `none` exactly where the Rust function returns
`Err` (a response that fails to decode); every other exit is `some`.
State arguments: remaining action list, current optional response context,
`forward_attempts`, and the issued-call counter. -/
def apply_response_actions (collab : Collaborators)
    (oracle : Nat → ForwardOutcome) (req : Message)
    (response_matchers : List RespMatcherWithOp) (qname : List Char)
    (qtype qclass : Nat) (upstream_default : String) (remaining_jumps : Nat) :
    List Action → Option ResponseContext → Nat → Nat →
      Option ResponseActionResult × Nat
  | [], ctx_opt, _, calls =>
    match ctx_opt with
    | some ctx =>
      (some (.Upstream ctx (eval_response_matchers response_matchers
        ctx.upstream qname qtype qclass ctx.msg)), calls)
    | none =>
      (some (.Static (build_response req .ServFail []) .ServFail
        "response_action"), calls)
  | action :: rest, ctx_opt, forward_attempts, calls =>
    match action with
    | .Log _ =>
      apply_response_actions collab oracle req response_matchers qname qtype
        qclass upstream_default remaining_jumps rest ctx_opt forward_attempts
        calls
    | .StaticResponse rcode =>
      let code := (parse_rcode rcode).getD .NXDomain
      (some (.Static (build_response req code []) code "response_action"),
        calls)
    | .StaticIpResponse ip =>
      let ra := make_static_ip_answer collab qname ip
      (some (.Static (build_response req ra.1 ra.2) ra.1 "response_action"),
        calls)
    | .JumpToPipeline pipeline =>
      if remaining_jumps = 0 then
        (some (.Static (build_response req .ServFail []) .ServFail
          "response_action"), calls)
      else (some (.Jump pipeline (remaining_jumps - 1)), calls)
    | .Allow =>
      match ctx_opt with
      | some ctx =>
        (some (.Upstream ctx (eval_response_matchers response_matchers
          ctx.upstream qname qtype qclass ctx.msg)), calls)
      | none =>
        (some (.Static (build_response req .ServFail []) .ServFail
          "response_action"), calls)
    | .Deny =>
      (some (.Static (build_response req .Refused []) .Refused
        "response_action"), calls)
    | .Continue => (some (.Continue ctx_opt), calls)
    | .Forward upstream transport =>
      let forward_attempts2 := forward_attempts + 1
      if 4 < forward_attempts2 then
        (some (.Static (build_response req .ServFail []) .ServFail
          "response_action"), calls)
      else
        let upstream_addr :=
          upstream.getD ((ctx_opt.map (·.upstream)).getD upstream_default)
        let use_transport := transport.getD Transport.Udp
        match oracle calls with
        | .ok raw msg =>
          apply_response_actions collab oracle req response_matchers qname
            qtype qclass upstream_default remaining_jumps rest
            (some ⟨raw, msg, upstream_addr, use_transport⟩) forward_attempts2
            (calls + 1)
        | .ioFail =>
          (some (.Static (build_response req .ServFail []) .ServFail
            "response_action"), calls + 1)
        | .parseFail _ => (none, calls + 1)

/-! ### engine.rs: hedged UDP retry with TCP fallback
(`forward_udp_smart`) -/

/-- Models `std::time::Duration::checked_div`: `none` only when the divisor is
zero.  Durations are modelled in nanoseconds. -/
def duration_checked_div (t d : Nat) : Option Nat :=
  if d = 0 then none else some (t / d)

/-- The first-attempt budget computed by src/engine.rs
`Engine::forward_udp_smart`:
`timeout_dur.checked_div(2).unwrap_or_else(|| 50ms.max(timeout_dur))`. -/
def hedge_timeout (timeout_dur : Nat) : Nat :=
  match duration_checked_div timeout_dur 2 with
  | some half => half
  | none => max 50000000 timeout_dur

/-- src/engine.rs `Engine::forward_udp_smart` (lines 1159-1194): the
two-element attempt loop unrolled.  The UDP client is modelled by
`udp_send`, indexed by attempt number and budget; the TCP multiplexer by
`tcp_send`, indexed by budget; `none` is a failed attempt. -/
def forward_udp_smart (udp_send : Nat → Nat → Option (List Nat))
    (tcp_send : Nat → Option (List Nat)) (timeout_dur : Nat) :
    Option (List Nat) :=
  match udp_send 0 (hedge_timeout timeout_dur) with
  | some bytes => some bytes
  | none =>
    match udp_send 1 timeout_dur with
    | some bytes => some bytes
    | none => tcp_send timeout_dur

/-- Modelled from the spec (§4.7.2, claim C5): the variant of
`forward_udp_smart` whose first UDP attempt uses budget `T/2` with a floor
of 50 ms, as the claim states; used only to compare against the source
definition. -/
def forward_udp_smart_floor (udp_send : Nat → Nat → Option (List Nat))
    (tcp_send : Nat → Option (List Nat)) (timeout_dur : Nat) :
    Option (List Nat) :=
  match udp_send 0 (max (timeout_dur / 2) 50000000) with
  | some bytes => some bytes
  | none =>
    match udp_send 1 timeout_dur with
    | some bytes => some bytes
    | none => tcp_send timeout_dur

/-! ## Theorems -/

/-! ### Helper lemmas on sorting and deduplication -/

theorem mem_sortNat {a : Nat} {l : List Nat} : a ∈ sortNat l ↔ a ∈ l :=
  List.mem_insertionSort _

theorem sorted_sortNat (l : List Nat) : (sortNat l).Sorted (· ≤ ·) :=
  List.sorted_insertionSort _ l

theorem mem_dedup_adj (a : Nat) : ∀ (l : List Nat), a ∈ dedup_adj l ↔ a ∈ l
  | [] => by simp [dedup_adj]
  | [x] => by simp [dedup_adj]
  | x :: y :: rest => by
    by_cases hxy : x = y
    · simp only [dedup_adj, if_pos hxy]
      rw [mem_dedup_adj a (y :: rest)]
      subst hxy
      simp [List.mem_cons]
    · simp only [dedup_adj, if_neg hxy, List.mem_cons]
      rw [mem_dedup_adj a (y :: rest)]
      simp [List.mem_cons]

theorem dedup_adj_sorted : ∀ (l : List Nat),
    l.Sorted (· ≤ ·) → (dedup_adj l).Sorted (· < ·)
  | [] => by simp [dedup_adj]
  | [x] => by simp [dedup_adj]
  | x :: y :: rest => by
    intro h
    rw [List.sorted_cons] at h
    by_cases hxy : x = y
    · simp only [dedup_adj, if_pos hxy]
      exact dedup_adj_sorted (y :: rest) h.2
    · simp only [dedup_adj, if_neg hxy]
      rw [List.sorted_cons]
      refine ⟨?_, dedup_adj_sorted (y :: rest) h.2⟩
      intro b hb
      rw [mem_dedup_adj b (y :: rest)] at hb
      have hxy' : x < y :=
        Nat.lt_of_le_of_ne (h.1 y (List.mem_cons_self y rest)) hxy
      rcases List.mem_cons.mp hb with hby | hbr
      · omega
      · have hyb : y ≤ b := (List.sorted_cons.mp h.2).1 b hbr
        omega

/-! ### Helper lemmas on the suffix walk -/

theorem mem_tail_search (m : List (List Char × List Nat)) :
    ∀ (q s : List Char), s ∈ tail_suffixes q →
      ∀ i ∈ assoc_get m s, i ∈ tail_search m q := by
  intro q
  induction q with
  | nil => simp [tail_suffixes]
  | cons c rest ih =>
    intro s hs i hi
    by_cases hc : c = '.'
    · simp only [tail_suffixes, if_pos hc] at hs
      simp only [tail_search, if_pos hc]
      rcases List.mem_cons.mp hs with h1 | h2
      · subst h1
        exact List.mem_append_left _ hi
      · exact List.mem_append_right _ (ih s h2 i hi)
    · simp only [tail_suffixes, if_neg hc] at hs
      simp only [tail_search, if_neg hc]
      exact ih s hs i hi

theorem mem_suffix_search (m : List (List Char × List Nat))
    (q s : List Char) (hs : s ∈ label_suffixes q) :
    ∀ i ∈ assoc_get m s, i ∈ suffix_search m q := by
  intro i hi
  unfold suffix_search
  rcases List.mem_cons.mp hs with h1 | h2
  · subst h1
    exact List.mem_append_left _ hi
  · exact List.mem_append_right _ (mem_tail_search m q s h2 i hi)

/-! ### C2: match-chain evaluation -/

theorem eval_chain_go_trace_fst {T : Type} (op_of : T → MatchOperator)
    (p : T → Bool) :
    ∀ (rest : List T) (acc : Bool) (i : Nat),
      (eval_chain_go_trace op_of p acc i rest).1 =
        eval_chain_go op_of p acc rest := by
  intro rest
  induction rest with
  | nil => intro acc i; rfl
  | cons item rest ih =>
    intro acc i
    cases hop : op_of item <;> cases acc <;>
      simp [eval_chain_go, eval_chain_go_trace, hop, ih]

theorem chain_spec_go_eq {T : Type} (op_of : T → MatchOperator) (p : T → Bool) :
    ∀ (rest : List T) (acc : Bool) (i : Nat),
      (∀ e ∈ rest, op_of e ≠ MatchOperator.Not) →
      chain_spec_go acc i (rest.map fun e => (op_of e, p e)) =
        some (eval_chain_go_trace op_of p acc i rest) := by
  intro rest
  induction rest with
  | nil => intro acc i _; rfl
  | cons item rest ih =>
    intro acc i hop
    have hitem : op_of item ≠ MatchOperator.Not := hop item (List.mem_cons_self _ _)
    have hrest : ∀ e ∈ rest, op_of e ≠ MatchOperator.Not := fun e he =>
      hop e (List.mem_cons_of_mem _ he)
    cases hopi : op_of item <;> cases acc <;>
      simp [chain_spec_go, eval_chain_go_trace, hopi, ih _ _ hrest] <;>
      simp [hopi] at hitem

/-- C2: `eval_match_chain` returns `true` on the empty chain; otherwise it
seeds the accumulator with the first predicate (its operator ignored) and
updates it per the claim's operator table, never evaluating a skipped
predicate: the claim-side recurrence `chain_spec_run` (which also lists the
evaluated positions) coincides with the instrumented source evaluator on
every chain built from the four configurable operators. -/
theorem C2_match_chain_semantics {T : Type} (entries : List T)
    (op_of : T → MatchOperator) (p : T → Bool)
    (hop : ∀ e ∈ entries, op_of e ≠ MatchOperator.Not) :
    chain_spec_run (entries.map fun e => (op_of e, p e)) =
      some (eval_match_chain_trace entries op_of p)
    ∧ eval_match_chain entries op_of p =
      (eval_match_chain_trace entries op_of p).1 := by
  cases entries with
  | nil => exact ⟨rfl, rfl⟩
  | cons first rest =>
    have hrest : ∀ e ∈ rest, op_of e ≠ MatchOperator.Not := fun e he =>
      hop e (List.mem_cons_of_mem _ he)
    constructor
    · simp only [List.map_cons, chain_spec_run, eval_match_chain_trace]
      rw [chain_spec_go_eq op_of p rest (p first) 1 hrest]
      rfl
    · simp only [eval_match_chain, eval_match_chain_trace]
      exact (eval_chain_go_trace_fst op_of p rest (p first) 1).symm

/-- Witness for C2 at a concrete three-element chain
`[AND true, AND-NOT true, AND true]`: the claim-side recurrence and the
source evaluator agree; positions 0 and 1 are evaluated, the AND-NOT on
the true accumulator flips it to false, and the final AND predicate is
skipped (never evaluated). -/
theorem C2_match_chain_semantics_witness :
    chain_spec_run [(MatchOperator.And, true), (MatchOperator.AndNot, true),
        (MatchOperator.And, true)] = some (false, [0, 1])
    ∧ eval_match_chain
        [((MatchOperator.And, true) : MatchOperator × Bool),
          (MatchOperator.AndNot, true), (MatchOperator.And, true)]
        Prod.fst Prod.snd = false := by
  have h := C2_match_chain_semantics
    [((MatchOperator.And, true) : MatchOperator × Bool),
      (MatchOperator.AndNot, true), (MatchOperator.And, true)]
    Prod.fst Prod.snd (by decide)
  have hmap : ([((MatchOperator.And, true) : MatchOperator × Bool),
      (MatchOperator.AndNot, true), (MatchOperator.And, true)].map
        fun e => (e.1, e.2)) =
      [(MatchOperator.And, true), (MatchOperator.AndNot, true),
        (MatchOperator.And, true)] := by decide
  have htr : eval_match_chain_trace
      [((MatchOperator.And, true) : MatchOperator × Bool),
        (MatchOperator.AndNot, true), (MatchOperator.And, true)]
      Prod.fst Prod.snd = (false, [0, 1]) := by decide
  refine ⟨?_, ?_⟩
  · rw [← hmap, h.1, htr]
  · rw [h.2, htr]

/-! ### C9: rule-level operator propagation -/

/-- C9: during matcher-chain compilation, a non-default rule-level
`matcher_operator` is applied uniformly to every item when every per-item
operator is the default AND (and the chain is non-empty); in mixed chains
(some item carrying a non-default operator) the per-item operators win and
the chain is unchanged; a default rule-level operator changes nothing. -/
theorem C9_rule_operator_propagation {M : Type} (rule_op : MatchOperator)
    (ms : List (MatchOperator × M)) :
    ((∀ m ∈ ms, m.1 = MatchOperator.And) → ms ≠ [] →
      rule_op ≠ MatchOperator.And →
      apply_rule_operator rule_op ms = ms.map fun m => (rule_op, m.2))
    ∧ ((∃ m ∈ ms, m.1 ≠ MatchOperator.And) →
      apply_rule_operator rule_op ms = ms)
    ∧ (rule_op = MatchOperator.And → apply_rule_operator rule_op ms = ms) := by
  refine ⟨?_, ?_, ?_⟩
  · intro hall hne hop
    unfold apply_rule_operator
    rw [if_pos]
    simp only [Bool.and_eq_true, List.all_eq_true, decide_eq_true_eq,
      Bool.not_eq_true', Bool.not_eq_false]
    refine ⟨⟨fun m hm => hall m hm, ?_⟩, ?_⟩
    · simpa [List.isEmpty_iff] using hne
    · simpa using hop
  · intro ⟨m, hm, hne⟩
    unfold apply_rule_operator
    rw [if_neg]
    simp only [Bool.and_eq_true, List.all_eq_true, decide_eq_true_eq]
    intro h
    exact hne (h.1.1 m hm)
  · intro hop
    unfold apply_rule_operator
    rw [if_neg]
    simp [hop]

/-- Witness for C9: a uniform all-default chain gets the rule operator
applied to both items, while a mixed chain is untouched. -/
theorem C9_rule_operator_propagation_witness :
    apply_rule_operator MatchOperator.Or
        [(MatchOperator.And, 0), (MatchOperator.And, 1)] =
      [(MatchOperator.Or, 0), (MatchOperator.Or, 1)]
    ∧ apply_rule_operator MatchOperator.Or
        [(MatchOperator.And, 0), (MatchOperator.OrNot, 1)] =
      [(MatchOperator.And, 0), (MatchOperator.OrNot, 1)] := by
  constructor
  · have h := (C9_rule_operator_propagation MatchOperator.Or
      [(MatchOperator.And, 0), (MatchOperator.And, 1)]).1
      (by decide) (by decide) (by decide)
    simpa using h
  · exact (C9_rule_operator_propagation MatchOperator.Or
      [(MatchOperator.And, 0), (MatchOperator.OrNot, 1)]).2.1
      ⟨(MatchOperator.OrNot, 1), by decide, by decide⟩

/-! ### C3: candidate sets from the rule index -/

/-- C3: for every `RuleIndex` built by `add_rule` over a pipeline's rule
list and every `(qname, qtype)`, `get_candidates` returns a strictly
ascending (hence sorted and duplicate-free) list containing every
`always_check` index, every rule indexed in `domain_exact` under `qname`,
every rule indexed in `domain_suffix` under any label-boundary suffix of
`qname` (the name itself or any suffix obtained by repeatedly stripping the
leading label at a dot), and every rule indexed in `query_type` under
`qtype`. -/
theorem C3_get_candidates_properties (rules : List CompiledRule)
    (ix : RuleIndex) (hix : ix = build_index rules)
    (qname : List Char) (qtype : Nat) :
    (get_candidates ix qname qtype).Sorted (· < ·)
    ∧ (get_candidates ix qname qtype).Nodup
    ∧ (∀ i ∈ ix.always_check, i ∈ get_candidates ix qname qtype)
    ∧ (∀ i ∈ assoc_get ix.domain_exact qname, i ∈ get_candidates ix qname qtype)
    ∧ (∀ s ∈ label_suffixes qname, ∀ i ∈ assoc_get ix.domain_suffix s,
        i ∈ get_candidates ix qname qtype)
    ∧ (∀ i ∈ assoc_get ix.query_type qtype, i ∈ get_candidates ix qname qtype) := by
  clear hix
  have hsorted : (get_candidates ix qname qtype).Sorted (· < ·) :=
    dedup_adj_sorted _ (sorted_sortNat _)
  have hmem : ∀ i : Nat,
      i ∈ ix.always_check ++ assoc_get ix.domain_exact qname ++
        suffix_search ix.domain_suffix qname ++ assoc_get ix.query_type qtype →
      i ∈ get_candidates ix qname qtype := by
    intro i hi
    unfold get_candidates
    rw [mem_dedup_adj, mem_sortNat]
    exact hi
  refine ⟨hsorted, hsorted.nodup, ?_, ?_, ?_, ?_⟩
  · intro i hi
    exact hmem i (by simp [List.mem_append]; tauto)
  · intro i hi
    exact hmem i (by simp [List.mem_append]; tauto)
  · intro s hs i hi
    have : i ∈ suffix_search ix.domain_suffix qname :=
      mem_suffix_search _ qname s hs i hi
    exact hmem i (by simp [List.mem_append]; tauto)
  · intro i hi
    exact hmem i (by simp [List.mem_append]; tauto)

/-- Witness for C3 on a four-rule pipeline exercising all four buckets:
rule 0 exact under `a.com`, rule 1 in `always_check` (regex matcher),
rule 2 suffix under `com`, rule 3 under query type 1; the candidate set for
`(a.com, A)` is `[0, 1, 2, 3]`. -/
theorem C3_get_candidates_properties_witness :
    get_candidates (build_index
      [⟨0, MatchOperator.And,
          [⟨MatchOperator.And, CompiledMatcher.DomainExact "a.com".toList⟩], none⟩,
        ⟨1, MatchOperator.And,
          [⟨MatchOperator.And, CompiledMatcher.Regex fun _ => true⟩], none⟩,
        ⟨2, MatchOperator.And,
          [⟨MatchOperator.And, CompiledMatcher.DomainSuffix "com".toList⟩], none⟩,
        ⟨3, MatchOperator.And,
          [⟨MatchOperator.And, CompiledMatcher.QueryType 1⟩], none⟩])
      "a.com".toList 1 = [0, 1, 2, 3]
    ∧ (2 : Nat) ∈ get_candidates (build_index
      [⟨0, MatchOperator.And,
          [⟨MatchOperator.And, CompiledMatcher.DomainExact "a.com".toList⟩], none⟩,
        ⟨1, MatchOperator.And,
          [⟨MatchOperator.And, CompiledMatcher.Regex fun _ => true⟩], none⟩,
        ⟨2, MatchOperator.And,
          [⟨MatchOperator.And, CompiledMatcher.DomainSuffix "com".toList⟩], none⟩,
        ⟨3, MatchOperator.And,
          [⟨MatchOperator.And, CompiledMatcher.QueryType 1⟩], none⟩])
      "a.com".toList 1 := by
  have h := C3_get_candidates_properties
    [⟨0, MatchOperator.And,
        [⟨MatchOperator.And, CompiledMatcher.DomainExact "a.com".toList⟩], none⟩,
      ⟨1, MatchOperator.And,
        [⟨MatchOperator.And, CompiledMatcher.Regex fun _ => true⟩], none⟩,
      ⟨2, MatchOperator.And,
        [⟨MatchOperator.And, CompiledMatcher.DomainSuffix "com".toList⟩], none⟩,
      ⟨3, MatchOperator.And,
        [⟨MatchOperator.And, CompiledMatcher.QueryType 1⟩], none⟩]
    _ rfl "a.com".toList 1
  refine ⟨by rfl, ?_⟩
  exact h.2.2.2.2.1 "com".toList (by decide) 2 (by decide)

/-! ### C6: compression-pointer cap in `parse_quick` -/

theorem pq_loop_hops_cap (packet : List Nat) (bufLen : Nat)
    (cp pos : Nat) (jumped : Bool) (mj : Nat) (buf : List Nat) (hops : Nat)
    (hmj : 1 ≤ mj) :
    (pq_loop_hops packet bufLen cp pos jumped mj buf hops).2 ≤ hops + mj
    ∧ ((pq_loop_hops packet bufLen cp pos jumped mj buf hops).2 = hops + mj →
      (pq_loop_hops packet bufLen cp pos jumped mj buf hops).1 = none) := by
  rw [pq_loop_hops]
  by_cases h1 : packet.length ≤ cp
  · rw [dif_pos h1]
    exact ⟨by omega, fun _ => rfl⟩
  · rw [dif_neg h1]
    by_cases h2 : packet.getD cp 0 = 0
    · rw [if_pos h2]
      exact ⟨by omega, fun h => absurd h (by omega)⟩
    · rw [if_neg h2]
      by_cases h3 : packet.getD cp 0 &&& 192 = 192
      · rw [if_pos h3]
        by_cases h4 : packet.length < cp + 2
        · rw [if_pos h4]
          exact ⟨by omega, fun _ => rfl⟩
        · rw [if_neg h4]
          by_cases h5 : mj - 1 = 0
          · rw [dif_pos h5]
            exact ⟨by omega, fun _ => rfl⟩
          · rw [dif_neg h5]
            have ih := pq_loop_hops_cap packet bufLen
              ((packet.getD cp 0 &&& 63) <<< 8 ||| packet.getD (cp + 1) 0)
              (if jumped then pos else cp + 2) true (mj - 1) buf (hops + 1)
              (by omega)
            refine ⟨?_, ?_⟩
            · have := ih.1
              omega
            · intro h
              exact ih.2 (by omega)
      · rw [if_neg h3]
        by_cases h4 : packet.length < cp + 1 + packet.getD cp 0
        · rw [if_pos h4]
          exact ⟨by omega, fun h => absurd h (by omega)⟩
        · rw [if_neg h4]
          cases hws : write_sep bufLen buf with
          | none =>
            simp only [hws]
            exact ⟨by omega, fun h => absurd h (by omega)⟩
          | some buf1 =>
            simp only [hws]
            cases hwl : write_label bufLen buf1
                (List.take (packet.getD cp 0) (List.drop (cp + 1) packet)) with
            | none =>
              simp only [hwl]
              exact ⟨by omega, fun h => absurd h (by omega)⟩
            | some buf2 =>
              simp only [hwl]
              exact pq_loop_hops_cap packet bufLen (cp + 1 + packet.getD cp 0)
                pos jumped mj buf2 hops hmj
termination_by mj * (packet.length + 1) + (packet.length - cp)
decreasing_by
  · calc (mj - 1) * (packet.length + 1)
          + (packet.length - ((packet.getD cp 0 &&& 63) <<< 8 ||| packet.getD (cp + 1) 0))
        < (mj - 1) * (packet.length + 1) + (packet.length + 1) := by omega
      _ = (mj - 1 + 1) * (packet.length + 1) := by ring
      _ ≤ mj * (packet.length + 1) := by
          have : mj - 1 + 1 ≤ mj := by omega
          exact Nat.mul_le_mul_right _ this
      _ ≤ mj * (packet.length + 1) + (packet.length - cp) := Nat.le_add_right _ _
  · have : packet.length - (cp + 1 + packet.getD cp 0) < packet.length - cp := by omega
    omega

/-- C6: `parse_quick` honours DNS compression pointers with a jump budget
of 5: no parse ever takes more than 5 pointer hops, and a packet whose
pointer chain reaches the fifth hop (in particular a compression loop) is
rejected with the parse-failure sentinel `none` instead of looping;
`parse_quick` is the hop-counter erasure of the instrumented parser. -/
theorem C6_pointer_jump_cap (packet : List Nat) (bufLen : Nat) :
    (parse_quick_hops packet bufLen).2 ≤ 5
    ∧ ((parse_quick_hops packet bufLen).2 = 5 → parse_quick packet bufLen = none)
    ∧ parse_quick packet bufLen = (parse_quick_hops packet bufLen).1 := by
  have hcap := pq_loop_hops_cap packet bufLen 12 12 false 5 [] 0 (by omega)
  have key : (parse_quick_hops packet bufLen).2 ≤ 5
      ∧ ((parse_quick_hops packet bufLen).2 = 5 →
        (parse_quick_hops packet bufLen).1 = none) := by
    unfold parse_quick_hops
    by_cases hlen : packet.length < 12
    · rw [if_pos hlen]
      exact ⟨by omega, fun h => absurd h (by omega)⟩
    · rw [if_neg hlen]
      by_cases hqd : packet.getD 4 0 * 256 + packet.getD 5 0 = 0
      · rw [if_pos hqd]
        exact ⟨by omega, fun h => absurd h (by omega)⟩
      · rw [if_neg hqd]
        cases hloop : pq_loop_hops packet bufLen 12 12 false 5 [] 0 with
        | mk o hops =>
          rw [hloop] at hcap
          cases o with
          | none =>
            refine ⟨by simpa using hcap.1, fun _ => rfl⟩
          | some q =>
            cases q with
            | mk buf qpos =>
              have h5 : ¬hops = 5 := fun h => by
                have := hcap.2 (by simpa using h)
                exact Option.noConfusion this
              dsimp only
              constructor
              · split_ifs <;> simpa using hcap.1
              · intro h
                exfalso
                apply h5
                revert h
                split_ifs <;> intro h <;> simpa using h
  exact ⟨key.1, fun h => key.2 h, rfl⟩

/-- Witness for C6: a 14-byte packet whose QNAME is a compression pointer
to itself (offset 12) takes exactly 5 hops and is rejected with `none`. -/
theorem C6_pointer_jump_cap_witness :
    (parse_quick_hops [0, 0, 0, 0, 0, 1, 0, 0, 0, 0, 0, 0, 192, 12] 256).2 = 5
    ∧ parse_quick [0, 0, 0, 0, 0, 1, 0, 0, 0, 0, 0, 0, 192, 12] 256 = none := by
  have h5 : (parse_quick_hops [0, 0, 0, 0, 0, 1, 0, 0, 0, 0, 0, 0, 192, 12]
      256).2 = 5 := by
    simp +decide [parse_quick_hops, pq_loop_hops]
  exact ⟨h5,
    (C6_pointer_jump_cap [0, 0, 0, 0, 0, 1, 0, 0, 0, 0, 0, 0, 192, 12]
      256).2.1 h5⟩

/-! ### C1: transaction-id of every answered response -/

theorem bytes_be_two (v : Nat) : bytes_be 2 v = [v / 256 % 256, v % 256] := by
  simp [bytes_be, List.range_succ]

theorem emit_message_take_two (m : Message) :
    (emit_message m).take 2 = [m.id / 256 % 256, m.id % 256] := by
  rw [emit_message, bytes_be_two]
  rfl

theorem take_two_of_getD (packet : List Nat) (h2 : 2 ≤ packet.length) :
    packet.take 2 = [packet.getD 0 0, packet.getD 1 0] := by
  match packet, h2 with
  | a :: b :: rest, _ => rfl

theorem parse_quick_tx_id (packet : List Nat) (bufLen : Nat) (q : QuickQuery)
    (h : parse_quick packet bufLen = some q) :
    q.tx_id = packet.getD 0 0 * 256 + packet.getD 1 0 := by
  unfold parse_quick parse_quick_hops at h
  by_cases hlen : packet.length < 12
  · rw [if_pos hlen] at h
    exact absurd h (by simp)
  · rw [if_neg hlen] at h
    by_cases hqd : packet.getD 4 0 * 256 + packet.getD 5 0 = 0
    · rw [if_pos hqd] at h
      exact absurd h (by simp)
    · rw [if_neg hqd] at h
      cases hloop : pq_loop_hops packet bufLen 12 12 false 5 [] 0 with
      | mk o hops =>
        rw [hloop] at h
        cases o with
        | none => exact absurd h (by simp)
        | some p =>
          cases p with
          | mk buf qpos =>
            dsimp only at h
            by_cases hp4 : packet.length < qpos + 4
            · rw [if_pos hp4] at h
              exact absurd h (by simp)
            · rw [if_neg hp4] at h
              by_cases hu : utf8_valid buf = true
              · rw [if_pos hu] at h
                dsimp only at h
                injection h with h
                rw [← h]
              · rw [if_neg hu] at h
                exact absurd h (by simp)

/-- C1: for every query packet of length ≥ 2 (with byte-valued entries),
every path by which the engine answers carries the query's transaction id
in the first two response bytes: the cached-bytes / single-flight rewrite
(`cache_hit_rewrite`), the fast static builder
(`build_fast_static_response`), and the full `build_response` with the
request id decoded from the packet's first two bytes; and the quick parser
extracts exactly that transaction id. -/
theorem C1_response_transaction_id (packet : List Nat) (tx : Nat)
    (h2 : 2 ≤ packet.length)
    (hb0 : packet.getD 0 0 < 256) (hb1 : packet.getD 1 0 < 256)
    (htx : tx = packet.getD 0 0 * 256 + packet.getD 1 0) :
    (∀ cached : List Nat, 2 ≤ cached.length →
      (cache_hit_rewrite tx cached).take 2 = packet.take 2)
    ∧ (∀ (pn : List Char → Option (List Char)) (qn : List Char)
        (qt qc : Nat) (rcode : ResponseCode) (ans : List DnsRecord)
        (r : List Nat),
        build_fast_static_response pn tx qn qt qc rcode ans = some r →
        r.take 2 = packet.take 2)
    ∧ (∀ (req : Message) (rcode : ResponseCode) (ans : List DnsRecord),
        req.id = tx →
        (build_response req rcode ans).take 2 = packet.take 2)
    ∧ (∀ (bufLen : Nat) (q : QuickQuery),
        parse_quick packet bufLen = some q → q.tx_id = tx) := by
  have hpk : packet.take 2 = [packet.getD 0 0, packet.getD 1 0] :=
    take_two_of_getD packet h2
  have harith : [tx / 256 % 256, tx % 256] =
      [packet.getD 0 0, packet.getD 1 0] := by
    rw [htx]
    congr 1
    · omega
    · congr 1
      omega
  refine ⟨?_, ?_, ?_, ?_⟩
  · intro cached hc
    rw [cache_hit_rewrite, if_pos hc, bytes_be_two]
    have : ((tx / 256 % 256 :: tx % 256 :: []) ++ cached.drop 2).take 2 =
        [tx / 256 % 256, tx % 256] := rfl
    rw [this, harith, hpk]
  · intro pn qn qt qc rcode ans r hr
    unfold build_fast_static_response at hr
    cases hpn : pn qn with
    | none => rw [hpn] at hr; exact absurd hr (by simp)
    | some nm =>
      rw [hpn] at hr
      injection hr with hr
      rw [← hr, emit_message_take_two]
      dsimp only
      rw [harith, hpk]
  · intro req rcode ans hid
    rw [build_response, emit_message_take_two]
    dsimp only
    rw [hid, harith, hpk]
  · intro bufLen q hq
    rw [parse_quick_tx_id packet bufLen q hq, htx]

/-- Witness for C1 at the query packet for `ab. A IN` with transaction id
0x1234: the cached-bytes rewrite and a built SERVFAIL response both start
with bytes `[18, 52]`. -/
theorem C1_response_transaction_id_witness :
    (cache_hit_rewrite 4660 [0, 0, 99]).take 2 =
      ([18, 52, 1, 0, 0, 1, 0, 0, 0, 0, 0, 0, 2, 97, 98, 0, 0, 1, 0, 1] :
        List Nat).take 2
    ∧ (build_response
        ⟨4660, false, true, true, false, ResponseCode.NoError, [], [], false⟩
        ResponseCode.ServFail []).take 2 =
      ([18, 52, 1, 0, 0, 1, 0, 0, 0, 0, 0, 0, 2, 97, 98, 0, 0, 1, 0, 1] :
        List Nat).take 2 := by
  have h := C1_response_transaction_id
    [18, 52, 1, 0, 0, 1, 0, 0, 0, 0, 0, 0, 2, 97, 98, 0, 0, 1, 0, 1] 4660
    (by decide) (by decide) (by decide) (by decide)
  exact ⟨h.1 [0, 0, 99] (by decide),
    h.2.2.1 ⟨4660, false, true, true, false, ResponseCode.NoError, [], [], false⟩
      ResponseCode.ServFail [] rfl⟩

/-! ### C4: request-phase jump resolution -/

/-- C4: processing a `Decision::Jump` increments the jump counter and
replaces the current pipeline (re-running `apply_rules` in the target and
recording its rule-cache write); a counter exceeding
`settings.response_jump_limit` yields `Static(ServFail, [])`, and an
unknown target pipeline id yields `Static(ServFail, [])`. -/
theorem C4_jump_resolution (collab : Collaborators) (cfg : RuntimeConfig)
    (client_ip : IpAddr) (qname : List Char) (qtype qclass : Nat)
    (edns_present : Bool) (limit jump_count : Nat) (cur_id target : String)
    (cache : List (String × Decision)) :
    (limit < jump_count + 1 →
      resolve_jumps collab cfg client_ip qname qtype qclass edns_present limit
        jump_count cur_id cache (.Jump target) =
      some (.Static .ServFail [], cur_id, cache))
    ∧ (jump_count + 1 ≤ limit →
      cfg.pipelines.find? (fun p => decide (p.id = target)) = none →
      resolve_jumps collab cfg client_ip qname qtype qclass edns_present limit
        jump_count cur_id cache (.Jump target) =
      some (.Static .ServFail [], cur_id, cache))
    ∧ (∀ (p : RuntimePipeline) (d : Decision) (w : Option Decision),
      jump_count + 1 ≤ limit →
      cfg.pipelines.find? (fun p => decide (p.id = target)) = some p →
      apply_rules collab cfg.default_upstream (rc_find cache target)
        (compiled_for cfg target) p client_ip qname qtype qclass edns_present
        none = some (d, w) →
      resolve_jumps collab cfg client_ip qname qtype qclass edns_present limit
        jump_count cur_id cache (.Jump target) =
      resolve_jumps collab cfg client_ip qname qtype qclass edns_present limit
        (jump_count + 1) target (rc_store cache target w) d) := by
  refine ⟨?_, ?_, ?_⟩
  · intro hlim
    rw [resolve_jumps, dif_pos hlim]
  · intro hlim hfind
    rw [resolve_jumps, dif_neg (by omega : ¬limit < jump_count + 1), hfind]
  · intro p d w hlim hfind happly
    rw [resolve_jumps, dif_neg (by omega : ¬limit < jump_count + 1), hfind]
    dsimp only
    rw [happly]

/-- Witness for C4: with `response_jump_limit = 0` the first jump already
exceeds the budget and yields a static SERVFAIL; with an empty pipeline
list the jump target is unknown and also yields SERVFAIL; and one jump step
into a one-rule pipeline `p1` that jumps to `p2` re-enters the loop with
the counter incremented, the pipeline replaced and the decision cached. -/
theorem C4_jump_resolution_witness :
    resolve_jumps ⟨fun _ => none, fun n => some n⟩ ⟨"1.1.1.1:53", [], []⟩
      (.V4 0) [] 1 1 false 0 0 "entry" [] (.Jump "missing") =
      some (.Static .ServFail [], "entry", [])
    ∧ resolve_jumps ⟨fun _ => none, fun n => some n⟩ ⟨"1.1.1.1:53", [], []⟩
      (.V4 0) [] 1 1 false 7 0 "entry" [] (.Jump "missing") =
      some (.Static .ServFail [], "entry", [])
    ∧ resolve_jumps ⟨fun _ => none, fun n => some n⟩
      ⟨"1.1.1.1:53",
        [⟨"p1", [⟨"r1", .And, [], [.JumpToPipeline "p2"], [], .And, [], []⟩],
          [], [0]⟩], []⟩
      (.V4 0) [] 1 1 false 3 0 "entry" [] (.Jump "p1") =
      resolve_jumps ⟨fun _ => none, fun n => some n⟩
      ⟨"1.1.1.1:53",
        [⟨"p1", [⟨"r1", .And, [], [.JumpToPipeline "p2"], [], .And, [], []⟩],
          [], [0]⟩], []⟩
      (.V4 0) [] 1 1 false 3 1 "p1" [("p1", .Jump "p2")] (.Jump "p2") := by
  refine ⟨?_, ?_, ?_⟩
  · exact (C4_jump_resolution ⟨fun _ => none, fun n => some n⟩
      ⟨"1.1.1.1:53", [], []⟩ (.V4 0) [] 1 1 false 0 0 "entry" "missing" []).1
      (by omega)
  · exact (C4_jump_resolution ⟨fun _ => none, fun n => some n⟩
      ⟨"1.1.1.1:53", [], []⟩ (.V4 0) [] 1 1 false 7 0 "entry" "missing"
      []).2.1 (by omega) rfl
  · exact (C4_jump_resolution ⟨fun _ => none, fun n => some n⟩
      ⟨"1.1.1.1:53",
        [⟨"p1", [⟨"r1", .And, [], [.JumpToPipeline "p2"], [], .And, [], []⟩],
          [], [0]⟩], []⟩
      (.V4 0) [] 1 1 false 3 0 "entry" "p1" []).2.2
      ⟨"p1", [⟨"r1", .And, [], [.JumpToPipeline "p2"], [], .And, [], []⟩],
        [], [0]⟩
      (.Jump "p2") (some (.Jump "p2")) (by omega) rfl rfl

/-! ### C5: hedged UDP retry and TCP fallback -/

/-- Counterexample for C5 as stated: the claimed 50 ms floor on the first
UDP attempt does not exist in the code.  `Duration::checked_div(2)` never
fails, so the floor expression is dead: at `T = 20 ms` (nanosecond units)
the code budgets the first attempt at 10 ms while the claim mandates 50 ms,
and against an upstream that only answers within budgets ≥ 50 ms the code
returns failure where the claimed behaviour succeeds. -/
theorem C5_floor_counterexample :
    hedge_timeout 20000000 = 10000000
    ∧ max (20000000 / 2) 50000000 = 50000000
    ∧ forward_udp_smart (fun _ b => if 50000000 ≤ b then some [1] else none)
        (fun _ => none) 20000000 = none
    ∧ forward_udp_smart_floor
        (fun _ b => if 50000000 ≤ b then some [1] else none)
        (fun _ => none) 20000000 = some [1] := by
  exact ⟨by decide, by decide, by decide, by decide⟩

/-- C5 amended: `forward_udp_smart(packet, upstream, T)` makes sequential
attempts — a first UDP attempt with budget exactly `T/2` (no 50 ms floor:
the floor branch of the budget expression is unreachable), on failure a
second UDP attempt with budget `T`, and if both UDP attempts fail a TCP
fallback with budget `T`; it returns the first successful response without
starting later attempts (the result does not depend on `tcp_send` when a
UDP attempt succeeds). -/
theorem C5_forward_udp_smart_amended (udp_send : Nat → Nat → Option (List Nat))
    (tcp_send : Nat → Option (List Nat)) (t : Nat) :
    hedge_timeout t = t / 2
    ∧ (∀ b, udp_send 0 (t / 2) = some b →
        forward_udp_smart udp_send tcp_send t = some b)
    ∧ (udp_send 0 (t / 2) = none → ∀ b, udp_send 1 t = some b →
        forward_udp_smart udp_send tcp_send t = some b)
    ∧ (udp_send 0 (t / 2) = none → udp_send 1 t = none →
        forward_udp_smart udp_send tcp_send t = tcp_send t) := by
  have hht : hedge_timeout t = t / 2 := rfl
  refine ⟨hht, ?_, ?_, ?_⟩
  · intro b h1
    rw [forward_udp_smart, hht, h1]
  · intro h1 b h2
    rw [forward_udp_smart, hht, h1]
    dsimp only
    rw [h2]
  · intro h1 h2
    rw [forward_udp_smart, hht, h1]
    dsimp only
    rw [h2]

/-- Witness for C5 (amended): a first attempt that succeeds at budget
`100 / 2 = 50` is returned untouched for any TCP sender, and when both UDP
attempts fail the TCP result at full budget is returned. -/
theorem C5_forward_udp_smart_amended_witness :
    forward_udp_smart (fun i b => if i = 0 then some [b] else none)
      (fun _ => none) 100 = some [50]
    ∧ forward_udp_smart (fun _ _ => none) (fun b => some [b, 7]) 100 =
      some [100, 7] := by
  constructor
  · exact (C5_forward_udp_smart_amended
      (fun i b => if i = 0 then some [b] else none) (fun _ => none) 100).2.1
      [50] (by decide)
  · exact ((C5_forward_udp_smart_amended (fun _ _ => none)
      (fun b => some [b, 7]) 100).2.2.2 rfl rfl).trans rfl

/-! ### C7: response-phase forward cap -/

theorem ara_calls_bound (collab : Collaborators) (oracle : Nat → ForwardOutcome)
    (req : Message) (rms : List RespMatcherWithOp) (qname : List Char)
    (qtype qclass : Nat) (updef : String) (rj : Nat) :
    ∀ (actions : List Action) (ctx : Option ResponseContext) (fa calls : Nat),
      (apply_response_actions collab oracle req rms qname qtype qclass updef
        rj actions ctx fa calls).2 ≤ calls + (4 - fa) := by
  intro actions
  induction actions with
  | nil =>
    intro ctx fa calls
    cases ctx <;> simp [apply_response_actions]
  | cons action rest ih =>
    intro ctx fa calls
    cases action with
    | Log lvl => simpa [apply_response_actions] using ih ctx fa calls
    | StaticResponse rc => simp [apply_response_actions]
    | StaticIpResponse ip => simp [apply_response_actions]
    | JumpToPipeline p =>
      simp only [apply_response_actions]
      split <;> simp
    | Allow => cases ctx <;> simp [apply_response_actions]
    | Deny => simp [apply_response_actions]
    | Continue => simp [apply_response_actions]
    | Forward up tr =>
      simp only [apply_response_actions]
      by_cases hfa : 4 < fa + 1
      · rw [if_pos hfa]
        simp
      · rw [if_neg hfa]
        cases horacle : oracle calls with
        | ok raw msg =>
          dsimp only
          refine le_trans (ih _ (fa + 1) (calls + 1)) ?_
          omega
        | ioFail =>
          dsimp only
          omega
        | parseFail raw =>
          dsimp only
          omega

/-- C7: within a single response-phase action list at most 4 `Forward`
actions issue upstream calls, and the `Forward` attempt that would exceed
the cap of 4 makes `apply_response_actions` return a static SERVFAIL
result with no further upstream call: a list of ≥ 5 `Forward` actions
against an always-successful upstream returns the SERVFAIL static result
after exactly 4 issued calls. -/
theorem C7_response_forward_cap (collab : Collaborators)
    (oracle : Nat → ForwardOutcome) (req : Message)
    (rms : List RespMatcherWithOp) (qname : List Char) (qtype qclass : Nat)
    (updef : String) (rj : Nat) :
    (∀ (actions : List Action) (ctx : Option ResponseContext),
      (apply_response_actions collab oracle req rms qname qtype qclass updef
        rj actions ctx 0 0).2 ≤ 4)
    ∧ (∀ (n : Nat), 5 ≤ n → ∀ (raws : Nat → List Nat) (msgs : Nat → Message)
        (ctx : Option ResponseContext),
      apply_response_actions collab (fun i => .ok (raws i) (msgs i)) req rms
        qname qtype qclass updef rj
        (List.replicate n (.Forward none none)) ctx 0 0 =
      (some (.Static (build_response req .ServFail []) .ServFail
        "response_action"), 4)) := by
  constructor
  · intro actions ctx
    simpa using ara_calls_bound collab oracle req rms qname qtype qclass
      updef rj actions ctx 0 0
  · intro n h5 raws msgs ctx
    rcases Nat.exists_eq_add_of_le h5 with ⟨m, rfl⟩
    rw [show 5 + m = m + 5 by omega]
    simp only [List.replicate_add, List.replicate, List.append_assoc,
      List.cons_append, List.nil_append]
    simp [apply_response_actions]

/-- Witness for C7: six `Forward` actions against an always-successful
upstream produce the SERVFAIL static result after exactly 4 issued calls. -/
theorem C7_response_forward_cap_witness :
    apply_response_actions ⟨fun _ => none, fun n => some n⟩
      (fun i => .ok [i] ⟨0, true, true, true, false, .NoError, [], [], false⟩)
      ⟨7, false, true, false, false, .NoError, [], [], false⟩ [] [] 1 1
      "1.1.1.1:53" 10 (List.replicate 6 (.Forward none none)) none 0 0 =
    (some (.Static (build_response
      ⟨7, false, true, false, false, .NoError, [], [], false⟩ .ServFail [])
      .ServFail "response_action"), 4) :=
  (C7_response_forward_cap ⟨fun _ => none, fun n => some n⟩ (fun _ => .ioFail)
    ⟨7, false, true, false, false, .NoError, [], [], false⟩ [] [] 1 1
    "1.1.1.1:53" 10).2 6 (by omega) (fun i => [i])
    (fun _ => ⟨0, true, true, true, false, .NoError, [], [], false⟩) none

/-! ### C8: the L1 rule cache never holds a continue-flagged Forward -/

theorem rra_forward_cached (collab : Collaborators) (updef : String)
    (qname : List Char) (rule : RuntimeRule) :
    ∀ (actions : List Action) (up : String) (rms : List RespMatcherWithOp)
      (rmo : MatchOperator) (ram ramiss : List Action) (rn : String)
      (tr : Transport) (com comiss ar : Bool),
      run_rule_actions collab updef qname rule actions =
        .Decided (.Forward up rms rmo ram ramiss rn tr com comiss ar) true →
      com = false ∧ comiss = false ∧ contains_continue ram = false ∧
        contains_continue ramiss = false := by
  intro actions
  induction actions with
  | nil =>
    intro up rms rmo ram ramiss rn tr com comiss ar h
    simp [run_rule_actions] at h
  | cons action rest ih =>
    intro up rms rmo ram ramiss rn tr com comiss ar h
    cases action with
    | Log lvl =>
      exact ih up rms rmo ram ramiss rn tr com comiss ar
        (by simpa [run_rule_actions] using h)
    | StaticResponse rc => simp [run_rule_actions] at h
    | StaticIpResponse ip =>
      rw [run_rule_actions] at h
      cases hip : collab.parse_ip ip with
      | none =>
        rw [hip] at h
        simp at h
      | some ipa =>
        rw [hip] at h
        cases hnm : collab.parse_name qname with
        | none =>
          rw [hnm] at h
          simp at h
        | some nm =>
          rw [hnm] at h
          simp at h
    | JumpToPipeline p => simp [run_rule_actions] at h
    | Allow =>
      simp only [run_rule_actions, RuleStep.Decided.injEq,
        Decision.Forward.injEq] at h
      obtain ⟨⟨_, hrms, _, hram, hramiss, _, _, hcom, hcomiss, _⟩, _⟩ := h
      subst hram
      subst hramiss
      exact ⟨hcom.symm, hcomiss.symm, rfl, rfl⟩
    | Deny => simp [run_rule_actions] at h
    | Forward up' tr' =>
      simp only [run_rule_actions, RuleStep.Decided.injEq,
        Decision.Forward.injEq] at h
      obtain ⟨⟨_, hrms, _, hram, hramiss, _, _, hcom, hcomiss, _⟩, hcache⟩ := h
      rw [Bool.and_eq_true, Bool.not_eq_true', Bool.not_eq_true'] at hcache
      subst hram
      subst hramiss
      refine ⟨?_, ?_, ?_, ?_⟩
      · rw [← hcom]; exact hcache.1
      · rw [← hcomiss]; exact hcache.2
      · exact hcache.1
      · exact hcache.2
    | Continue => simp [run_rule_actions] at h

theorem walk_rules_forward_write (collab : Collaborators) (updef : String)
    (pipeline : RuntimePipeline) (client_ip : IpAddr) (qname : List Char)
    (qclass : Nat) (edns : Bool) (skip : Option (List String)) :
    ∀ (cands : List Nat) (d w : Decision) (up : String)
      (rms : List RespMatcherWithOp) (rmo : MatchOperator)
      (ram ramiss : List Action) (rn : String) (tr : Transport)
      (com comiss ar : Bool),
      walk_rules collab updef pipeline client_ip qname qclass edns skip cands =
        some (d, some w) →
      w = .Forward up rms rmo ram ramiss rn tr com comiss ar →
      com = false ∧ comiss = false ∧ contains_continue ram = false ∧
        contains_continue ramiss = false := by
  intro cands
  induction cands with
  | nil =>
    intro d w up rms rmo ram ramiss rn tr com comiss ar h hw
    have hnil : walk_rules collab updef pipeline client_ip qname qclass edns
        skip [] = some (default_forward updef, some (default_forward updef)) :=
      rfl
    rw [hnil] at h
    injection h with h
    injection h with hd hw2
    injection hw2 with hw2
    rw [← hw2] at hw
    rw [default_forward] at hw
    injection hw with f1 f2 f3 f4 f5 f6 f7 f8 f9 f10
    subst f4
    subst f5
    exact ⟨f8.symm, f9.symm, rfl, rfl⟩
  | cons idx rest ih =>
    intro d w up rms rmo ram ramiss rn tr com comiss ar h hw
    rw [walk_rules] at h
    cases hrule : pipeline.rules.get? idx with
    | none =>
      rw [hrule] at h
      exact absurd h (by simp)
    | some rule =>
      rw [hrule] at h
      dsimp only at h
      by_cases hskip : ((skip.map fun l => l.contains rule.name).getD false
          : Bool)
      · rw [if_pos hskip] at h
        exact ih d w up rms rmo ram ramiss rn tr com comiss ar h hw
      · rw [if_neg hskip] at h
        by_cases hmatch : (eval_match_chain rule.matchers (fun m => m.operator)
            (fun m => runtime_matcher_matches m.matcher qname qclass client_ip
              edns) : Bool)
        · rw [if_pos hmatch] at h
          cases hrun : run_rule_actions collab updef qname rule rule.actions with
          | Fallthrough =>
            rw [hrun] at h
            exact ih d w up rms rmo ram ramiss rn tr com comiss ar h hw
          | Decided d2 cached =>
            rw [hrun] at h
            dsimp only at h
            cases cached with
            | false => simp at h
            | true =>
              simp only [if_true, Option.some.injEq, Prod.mk.injEq] at h
              obtain ⟨hd, hw2⟩ := h
              rw [hw2, hw] at hrun
              exact rra_forward_cached collab updef qname rule rule.actions
                up rms rmo ram ramiss rn tr com comiss ar hrun
        · rw [if_neg hmatch] at h
          exact ih d w up rms rmo ram ramiss rn tr com comiss ar h hw

/-- C8: `apply_rules` never writes a `Forward` decision with
`continue_on_match` or `continue_on_miss` set (equivalently, whose
`response_actions_on_match` or `response_actions_on_miss` contains a
`Continue` action) into the L1 rule cache: every cached `Forward` decision
has both flags false and both lists free of `Continue`. -/
theorem C8_no_l1_write_for_continue_forward (collab : Collaborators)
    (updef : String) (cache_lookup : Option Decision)
    (compiled : Option RuleIndex) (pipeline : RuntimePipeline)
    (client_ip : IpAddr) (qname : List Char) (qtype qclass : Nat)
    (edns : Bool) (skip : Option (List String)) :
    ∀ (d w : Decision) (up : String) (rms : List RespMatcherWithOp)
      (rmo : MatchOperator) (ram ramiss : List Action) (rn : String)
      (tr : Transport) (com comiss ar : Bool),
      apply_rules collab updef cache_lookup compiled pipeline client_ip qname
        qtype qclass edns skip = some (d, some w) →
      w = .Forward up rms rmo ram ramiss rn tr com comiss ar →
      com = false ∧ comiss = false ∧ contains_continue ram = false ∧
        contains_continue ramiss = false := by
  intro d w up rms rmo ram ramiss rn tr com comiss ar h hw
  have hcore : apply_rules_core collab updef compiled pipeline client_ip qname
      qtype qclass edns skip = some (d, some w) →
      com = false ∧ comiss = false ∧ contains_continue ram = false ∧
      contains_continue ramiss = false := by
    intro hc
    unfold apply_rules_core at hc
    exact walk_rules_forward_write collab updef pipeline client_ip qname
      qclass edns skip _ d w up rms rmo ram ramiss rn tr com comiss ar hc hw
  cases skip with
  | none =>
    unfold apply_rules at h
    dsimp only at h
    cases cache_lookup with
    | some d0 => simp at h
    | none => exact hcore h
  | some l =>
    unfold apply_rules at h
    dsimp only at h
    by_cases hle : (l.isEmpty : Bool)
    · rw [if_pos hle] at h
      cases cache_lookup with
      | some d0 => simp at h
      | none => exact hcore h
    · rw [if_neg hle] at h
      exact hcore h

/-- Witness for C8: a single rule forwarding to an explicit upstream with a
`Log`-only on-match list writes its `Forward` decision (both continue flags
false); applying the theorem confirms both flags and both lists are
continue-free. -/
theorem C8_no_l1_write_for_continue_forward_witness :
    contains_continue [Action.Log none] = false
    ∧ apply_rules ⟨fun _ => none, fun n => some n⟩ "1.1.1.1:53" none none
      ⟨"p", [⟨"r", .And, [], [.Forward (some "9.9.9.9:53") none],
        [], .And, [Action.Log none], []⟩], [], [0]⟩
      (.V4 0) [] 1 1 false none =
      some (.Forward "9.9.9.9:53" [] .And [Action.Log none] [] "r" .Udp
          false false false,
        some (.Forward "9.9.9.9:53" [] .And [Action.Log none] [] "r" .Udp
          false false false))
    ∧ (false = false ∧ false = false ∧
        contains_continue [Action.Log none] = false ∧
        contains_continue ([] : List Action) = false) := by
  refine ⟨rfl, rfl, ?_⟩
  exact C8_no_l1_write_for_continue_forward ⟨fun _ => none, fun n => some n⟩
    "1.1.1.1:53" none none
    ⟨"p", [⟨"r", .And, [], [.Forward (some "9.9.9.9:53") none],
      [], .And, [Action.Log none], []⟩], [], [0]⟩
    (.V4 0) [] 1 1 false none
    (.Forward "9.9.9.9:53" [] .And [Action.Log none] [] "r" .Udp false false
      false)
    (.Forward "9.9.9.9:53" [] .And [Action.Log none] [] "r" .Udp false false
      false)
    "9.9.9.9:53" [] .And [Action.Log none] [] "r" .Udp false false false
    rfl rfl

/-! ### C10: unknown rcode strings fall back to NXDomain -/

theorem parse_rcode_none_of_unknown (s : String)
    (h : ascii_upper s ∉ ["NOERROR", "FORMERR", "SERVFAIL", "NXDOMAIN",
      "NOTIMP", "REFUSED"]) : parse_rcode s = none := by
  have h1 : ¬ascii_upper s = "NOERROR" := fun he => h (by simp [he])
  have h2 : ¬ascii_upper s = "FORMERR" := fun he => h (by simp [he])
  have h3 : ¬ascii_upper s = "SERVFAIL" := fun he => h (by simp [he])
  have h4 : ¬ascii_upper s = "NXDOMAIN" := fun he => h (by simp [he])
  have h5 : ¬ascii_upper s = "NOTIMP" := fun he => h (by simp [he])
  have h6 : ¬ascii_upper s = "REFUSED" := fun he => h (by simp [he])
  simp [parse_rcode, h1, h2, h3, h4, h5, h6]

theorem tail_search_nil : ∀ q : List Char,
    tail_search ([] : List (List Char × List Nat)) q = [] := by
  intro q
  induction q with
  | nil => rfl
  | cons c rest ih => simp [tail_search, ih, assoc_get, List.find?]

theorem suffix_search_nil (q : List Char) :
    suffix_search ([] : List (List Char × List Nat)) q = [] := by
  rw [suffix_search, tail_search_nil]
  rfl

/-- C10: in `apply_rules`, a `StaticResponse` action whose rcode string is
not one of NOERROR/FORMERR/SERVFAIL/NXDOMAIN/NOTIMP/REFUSED (compared
case-insensitively) produces `Decision::Static` with rcode `NXDomain` and
an empty answer list rather than an error: the action loop yields that
decision for any such action at the head of a matched rule's list, and
`apply_rules` on a one-rule pipeline carrying the action returns it (as
`some`, not a failure), caching it as well. -/
theorem C10_invalid_rcode_nxdomain (collab : Collaborators) (updef : String)
    (qname : List Char) (rule : RuntimeRule) (s : String) (rest : List Action)
    (hs : ascii_upper s ∉ ["NOERROR", "FORMERR", "SERVFAIL", "NXDOMAIN",
      "NOTIMP", "REFUSED"]) :
    run_rule_actions collab updef qname rule (.StaticResponse s :: rest) =
      .Decided (.Static .NXDomain []) true
    ∧ ∀ (client_ip : IpAddr) (qtype qclass : Nat) (edns : Bool),
      apply_rules collab updef none none
        ⟨"p", [⟨"r", .And, [], [.StaticResponse s], [], .And, [], []⟩], [], [0]⟩
        client_ip qname qtype qclass edns none =
      some (.Static .NXDomain [], some (.Static .NXDomain [])) := by
  have hpr : parse_rcode s = none := parse_rcode_none_of_unknown s hs
  constructor
  · rw [run_rule_actions, hpr]
    rfl
  · intro client_ip qtype qclass edns
    unfold apply_rules
    dsimp only
    unfold apply_rules_core
    dsimp only
    rw [suffix_search_nil]
    simp [walk_rules, run_rule_actions, hpr, eval_match_chain, sortNat,
      dedup_adj, List.insertionSort]

/-- Witness for C10 with the rcode string `"bogus"`: both the action-loop
result and the `apply_rules` result are the cached `Static(NXDomain, [])`
decision. -/
theorem C10_invalid_rcode_nxdomain_witness :
    run_rule_actions ⟨fun _ => none, fun n => some n⟩ "1.1.1.1:53" []
      ⟨"r", .And, [], [.StaticResponse "bogus"], [], .And, [], []⟩
      (.StaticResponse "bogus" :: []) = .Decided (.Static .NXDomain []) true
    ∧ apply_rules ⟨fun _ => none, fun n => some n⟩ "1.1.1.1:53" none none
      ⟨"p", [⟨"r", .And, [], [.StaticResponse "bogus"], [], .And, [], []⟩],
        [], [0]⟩
      (.V4 0) [] 1 1 false none =
      some (.Static .NXDomain [], some (.Static .NXDomain [])) := by
  have h := C10_invalid_rcode_nxdomain ⟨fun _ => none, fun n => some n⟩
    "1.1.1.1:53" []
    ⟨"r", .And, [], [.StaticResponse "bogus"], [], .And, [], []⟩
    "bogus" [] (by decide)
  exact ⟨h.1, h.2 (.V4 0) 1 1 false⟩

end KixDns
